import Mathlib

/-!
# Verification of libsignal-node session-cipher claims

Shallow embedding of the JavaScript sources of `libsignal-node`
(`session_cipher.js`, `session_record.js`, `crypto.js`,
`crypto/crypto_engine.js`) and proofs about them.

Modelling conventions:

* A JS `Buffer` / `Uint8Array` is a `List Nat` of byte values (`Bytes`).
* The HMAC-SHA256 primitive (`nodeCrypto.createHmac('sha256', ...)`) and
  AES-256-CBC are external to the repository; definitions are parameterised
  over them (`hmac`, `aesEnc`, `aesDec`).  Likewise the protobuf
  encode/decode functions (`encodeWhisper`, `decodeWhisper`,
  `encodePreKey`) and the curve25519 agreement (`curveAgree`) are
  parameters, and the fresh key pair drawn by `curve.generateKeyPair()`
  inside `maybeStepRatchet` is passed in as `freshKp`.
* JS objects used as maps (`chain.messageKeys`, `record.sessions`,
  `session._chains` keyed by `base64(key)`; base64 is injective so the raw
  bytes serve as keys) are association lists with JS assignment
  (update-in-place or append) / `delete` semantics.
* JS in-place mutation of the session/record object graph is explicit
  state passing: stateful operations return the (possibly partially)
  mutated state next to an `Except`, mirroring that a thrown exception
  does not roll back mutations already performed.
* Performance-only fields of the source (`_metrics`, `_openSessionCache`,
  `_sortedSessionsCache`, `_serializedCache`, memoisation in
  `CryptoEngine`) are modelled in their invalidated/cold state: they never
  change the values computed, only recompute vs. reuse.
* `Date.now()` is passed in as an explicit `now : Int` argument.
-/

set_option maxHeartbeats 1000000
set_option maxRecDepth 100000

namespace LibSignal

/-- Byte strings (JS `Buffer`) as lists of byte values. -/
abbrev Bytes := List Nat

/-- JS object-as-map lookup (`m[k]`, `undefined` becomes `none`). -/
def mapLookup {κ α : Type} [DecidableEq κ] : List (κ × α) → κ → Option α
  | [], _ => none
  | (k', v) :: rest, k => if k' = k then some v else mapLookup rest k

/-- JS object-as-map assignment `m[k] = v`: update in place if the key is
present, otherwise append the new key. -/
def mapInsert {κ α : Type} [DecidableEq κ] : List (κ × α) → κ → α → List (κ × α)
  | [], k, v => [(k, v)]
  | (k', v') :: rest, k, v =>
    if k' = k then (k, v) :: rest else (k', v') :: mapInsert rest k v

/-- JS `delete m[k]`: remove the (first) binding of `k`. -/
def mapErase {κ α : Type} [DecidableEq κ] : List (κ × α) → κ → List (κ × α)
  | [], _ => []
  | (k', v') :: rest, k => if k' = k then rest else (k', v') :: mapErase rest k

/-- `Buffer.alloc(n)`: `n` zero bytes. -/
def bufAlloc (n : Nat) : Bytes := List.replicate n 0

/-- `buf.set(src, off)` for in-bounds writes (all uses in the sources are
in-bounds): overwrite `src.length` bytes of `buf` starting at `off`. -/
def bufSet (buf : Bytes) (off : Nat) (src : Bytes) : Bytes :=
  buf.take off ++ src ++ buf.drop (off + src.length)

/-- `buf[i] = v` for an in-bounds index. -/
def bufSetByte (buf : Bytes) (i : Nat) (v : Nat) : Bytes :=
  buf.take i ++ [v] ++ buf.drop (i + 1)

/-- Bytes of an ASCII string (`Buffer.from(s)`). -/
def strBytes (s : String) : Bytes := s.toList.map Char.toNat

/-- The error values thrown by the modelled code, by JS error class. -/
inductive SigErr where
  | sessionError (msg : String)
  | messageCounterError (msg : String)
  | untrustedIdentityKeyError (addrId : String) (identityKey : Bytes)
  | typeError (msg : String)
  | rangeError (msg : String)
  | assertionError (msg : String)
  | genericError (msg : String)
deriving Repr, DecidableEq

deriving instance DecidableEq for Except

/-! ## crypto.js / crypto_engine.js -/

/-- `crypto.calculateMAC(key, data)`: the retry loop around
`createHmac('sha256', key).update(data).digest()` always succeeds on the
first attempt for a total primitive, so it equals one `hmac` application. -/
def calculateMAC (hmac : Bytes → Bytes → Bytes) (key data : Bytes) : Bytes :=
  hmac key data

/-- JS `chunks || 3`: `undefined` and `0` are falsy and yield `3`. -/
def jsOrThree : Option Int → Int
  | none => 3
  | some v => if v = 0 then 3 else v

/-- The HKDF `infoArray` of `crypto.js`'s `deriveSecrets` after
`infoArray.set(info, 32); infoArray[infoArray.length - 1] = 1`. -/
def hkdfInfoArray1 (info : Bytes) : Bytes :=
  bufSetByte (bufSet (bufAlloc (info.length + 1 + 32)) 32 info) (info.length + 32) 1

/-- `crypto.js` `deriveSecrets(input, salt, info, chunks)`. -/
def deriveSecrets (hmac : Bytes → Bytes → Bytes) (input salt info : Bytes)
    (chunks : Option Int) : Except SigErr (List Bytes) :=
  if salt.length ≠ 32 then .error (.genericError "Got salt of incorrect length")
  else
    let chunks := jsOrThree chunks
    if ¬(chunks ≥ 1 ∧ chunks ≤ 3) then
      .error (.assertionError "chunks >= 1 && chunks <= 3")
    else
      let PRK := calculateMAC hmac salt input
      let infoArray := hkdfInfoArray1 info
      let signed1 := calculateMAC hmac PRK (infoArray.drop 32)
      if chunks > 1 then
        let infoArray2 := bufSetByte (bufSet infoArray 0 signed1) (infoArray.length - 1) 2
        let signed2 := calculateMAC hmac PRK infoArray2
        if chunks > 2 then
          let infoArray3 := bufSetByte (bufSet infoArray2 0 signed2) (infoArray2.length - 1) 3
          let signed3 := calculateMAC hmac PRK infoArray3
          .ok [signed1, signed2, signed3]
        else
          .ok [signed1, signed2]
      else
        .ok [signed1]

/-- The expand loop of `CryptoEngine.deriveSecrets`
(`for (let i = 2; i <= chunks; i++) { ... }`), with `left` remaining
iterations and `i` the loop counter. -/
def engineExpand (hmac : Bytes → Bytes → Bytes) (PRK : Bytes)
    (infoArray : Bytes) (signed : List Bytes) (i : Nat) : Nat → List Bytes
  | 0 => signed
  | left + 1 =>
    let last := signed.getLastD []
    let infoArray' := bufSetByte (bufSet infoArray 0 last) (infoArray.length - 1) i
    engineExpand hmac PRK infoArray' (signed ++ [calculateMAC hmac PRK infoArray']) (i + 1) left

/-- `CryptoEngine.deriveSecrets(input, salt, info, chunks = 3)` of
`crypto/crypto_engine.js` (memoisation modelled cold). -/
def engineDeriveSecrets (hmac : Bytes → Bytes → Bytes) (input salt info : Bytes)
    (chunks : Option Int) : Except SigErr (List Bytes) :=
  let chunks := chunks.getD 3
  if salt.length ≠ 32 then
    .error (.typeError "salt must be a Buffer of length 32")
  else if chunks < 1 ∨ chunks > 3 then
    .error (.genericError "chunks must be between 1 and 3")
  else
    let PRK := calculateMAC hmac salt input
    let infoArray := hkdfInfoArray1 info
    let signed := [calculateMAC hmac PRK (infoArray.drop 32)]
    .ok (engineExpand hmac PRK infoArray signed 2 (chunks - 1).toNat)

/-- The three HKDF output blocks as the spec states them:
`PRK = HMAC(salt, input)`, `T(1) = HMAC(PRK, info ‖ 0x01)`,
`T(i) = HMAC(PRK, T(i−1) ‖ info ‖ byte(i))`. -/
def hkdfChunksSpec (hmac : Bytes → Bytes → Bytes) (input salt info : Bytes) :
    List Bytes :=
  let PRK := hmac salt input
  let T1 := hmac PRK (info ++ [1])
  let T2 := hmac PRK (T1 ++ info ++ [2])
  let T3 := hmac PRK (T2 ++ info ++ [3])
  [T1, T2, T3]

/-- `crypto.verifyMAC(data, key, mac, length)`: length check, truncation to
`length`, `timingSafeEqual` (which itself throws `RangeError` when the two
buffers have different lengths). -/
def verifyMAC (hmac : Bytes → Bytes → Bytes) (data key mac : Bytes)
    (length : Nat) : Except SigErr Unit :=
  if mac.length ≠ length then
    .error (.genericError
      ("Comprimento esperado do MAC: " ++ toString length ++
        ", recebido: " ++ toString mac.length))
  else
    let calculatedMac := (calculateMAC hmac key data).take length
    if calculatedMac.length ≠ mac.length then
      .error (.rangeError "Input buffers must have the same byte length")
    else if calculatedMac ≠ mac then
      .error (.genericError "Falha na verificação do MAC")
    else .ok ()

/-! ## Session data model (`session_record.js`) -/

/-- Modelled from the spec: `chain_type.js` is not among the provided
sources; §3/§4.5 of the spec describe exactly two chain types, SENDING and
RECEIVING. -/
inductive ChainType where
  | sending
  | receiving
deriving Repr, DecidableEq

/-- `chain.chainKey`: `{counter, key}`; the key is `undefined` (here
`none`) once the chain has been closed. -/
structure ChainKey where
  counter : Int
  key : Option Bytes
deriving Repr, DecidableEq

/-- One sending or receiving chain. -/
structure Chain where
  chainKey : ChainKey
  messageKeys : List (Int × Bytes)
  chainType : ChainType
deriving Repr, DecidableEq

/-- `session.indexInfo`. -/
structure IndexInfo where
  baseKey : Bytes
  baseKeyType : Int
  closed : Int
  used : Int
  created : Int
  remoteIdentityKey : Bytes
deriving Repr, DecidableEq

structure KeyPair where
  pubKey : Bytes
  privKey : Bytes
deriving Repr, DecidableEq

/-- `session.currentRatchet`. -/
structure Ratchet where
  ephemeralKeyPair : KeyPair
  lastRemoteEphemeralKey : Bytes
  previousCounter : Int
  rootKey : Bytes
deriving Repr, DecidableEq

/-- `session.pendingPreKey`. -/
structure PendingPreKey where
  baseKey : Bytes
  signedKeyId : Int
  preKeyId : Option Int
deriving Repr, DecidableEq

/-- A `SessionEntry`: `registrationId` is `none` when the field is not a
number; `_chains` is keyed by `base64(pubKey)` — base64 is injective so the
raw bytes serve as the map key. -/
structure SessionEntry where
  registrationId : Option Int
  currentRatchet : Ratchet
  indexInfo : IndexInfo
  pendingPreKey : Option PendingPreKey
  chains : List (Bytes × Chain)
deriving Repr, DecidableEq

/-- `SessionEntry.getChain(key)`. -/
def getChain (s : SessionEntry) (key : Bytes) : Option Chain :=
  mapLookup s.chains key

/-- In-place update of the chain object returned by `getChain` (JS mutates
the aliased object; here the updated value is written back at its key). -/
def setChain (s : SessionEntry) (key : Bytes) (c : Chain) : SessionEntry :=
  { s with chains := mapInsert s.chains key c }

/-- `SessionEntry.addChain(key, value)`: throws on overwrite. -/
def addChain (s : SessionEntry) (key : Bytes) (c : Chain) : Except SigErr SessionEntry :=
  if (mapLookup s.chains key).isSome then .error (.genericError "Overwrite attempt")
  else .ok { s with chains := mapInsert s.chains key c }

/-- `SessionEntry.deleteChain(key)`: throws `ReferenceError` (modelled as a
generic error value) when absent. -/
def deleteChain (s : SessionEntry) (key : Bytes) : Except SigErr SessionEntry :=
  if (mapLookup s.chains key).isSome then
    .ok { s with chains := mapErase s.chains key }
  else .error (.genericError "Not Found")

/-- A `SessionRecord`: `sessions` keyed by `base64(baseKey)` (raw bytes
here), plus the `_lastCleanup` timestamp used by `removeOldSessions`.
Performance caches are modelled in their invalidated state. -/
structure SessionRecord where
  sessions : List (Bytes × SessionEntry)
  lastCleanup : Int
deriving Repr, DecidableEq

/-- `SessionRecord.isClosed(session)`. -/
def isClosed (s : SessionEntry) : Bool := s.indexInfo.closed ≠ -1

/-- `SessionRecord.getOpenSession()`, with the key of the found entry kept
so that in-place mutation of the aliased session object can be modelled
(the `_openSessionCache` fast path is modelled cold). -/
def getOpenSessionK (r : SessionRecord) : Option (Bytes × SessionEntry) :=
  r.sessions.find? (fun p => ¬isClosed p.2)

/-- `SessionRecord.getOpenSession()` as the source returns it. -/
def getOpenSession (r : SessionRecord) : Option SessionEntry :=
  (getOpenSessionK r).map Prod.snd

/-- `SessionRecord.haveOpenSession()`:
`!!openSession && typeof openSession.registrationId === 'number'`. -/
def haveOpenSession (r : SessionRecord) : Bool :=
  match getOpenSession r with
  | none => false
  | some s => s.registrationId.isSome

/-- Write a (mutated) session back at its key. -/
def recordSet (r : SessionRecord) (key : Bytes) (s : SessionEntry) : SessionRecord :=
  { r with sessions := mapInsert r.sessions key s }

/-- Stable descending-by-`used` insertion: the new element passes an
incumbent only when strictly more recently used, so ties keep their
original order — exactly the guarantee of the ES2019 stable
`Array.prototype.sort` with the source's comparator. -/
def insertByUsedDesc (p : Bytes × SessionEntry) :
    List (Bytes × SessionEntry) → List (Bytes × SessionEntry)
  | [] => [p]
  | q :: rest =>
    if p.2.indexInfo.used > q.2.indexInfo.used then p :: q :: rest
    else q :: insertByUsedDesc p rest

/-- `SessionRecord.getSessions()`: sessions ordered most-recently-used
first (stable sort, descending by `indexInfo.used`); the entry keys are
kept alongside to model object identity. -/
def getSessions (r : SessionRecord) : List (Bytes × SessionEntry) :=
  r.sessions.foldl (fun acc p => insertByUsedDesc p acc) []

/-! ## `SessionRecord.removeOldSessions` -/

/-- `CLOSED_SESSIONS_MAX`. -/
def CLOSED_SESSIONS_MAX : Int := 40

/-- `this._cleanupInterval`: 5 minutes in milliseconds. -/
def cleanupInterval : Int := 5 * 60 * 1000

/-- `session.indexInfo.closed < oldestTime` where `oldestTime` starts at
`Infinity` (`none`). -/
def beatsOldest (acc : Option (Bytes × Int)) (t : Int) : Bool :=
  match acc with
  | none => true
  | some q => t < q.2

/-- One pass of the oldest-closed scan: keep the incumbent unless this
entry is closed and strictly older. -/
def oldestScanStep (acc : Option (Bytes × Int)) (p : Bytes × SessionEntry) :
    Option (Bytes × Int) :=
  if p.2.indexInfo.closed ≠ -1 ∧ beatsOldest acc p.2.indexInfo.closed then
    some (p.1, p.2.indexInfo.closed)
  else acc

/-- The inner scan of `removeOldSessions`: the closed session with the
smallest `indexInfo.closed` (`Infinity` start, strict `<`, first wins on
ties). -/
def findOldestClosed (entries : List (Bytes × SessionEntry)) : Option (Bytes × Int) :=
  entries.foldl oldestScanStep none

/-- The `while (sessionEntries.length - removedCount > CLOSED_SESSIONS_MAX)`
loop of `removeOldSessions`: each pass deletes the oldest-closed entry from
both the live map and the scanned array (kept in lock-step here as one
list) and increments `removedCount`.  `fuel` bounds the recursion; any
`fuel ≥ entries.length` yields the loop's exact behaviour because every
pass removes one entry or breaks. -/
def removeOldLoop : List (Bytes × SessionEntry) → Nat → Nat →
    List (Bytes × SessionEntry) × Nat
  | entries, removed, 0 => (entries, removed)
  | entries, removed, fuel + 1 =>
    if (entries.length : Int) - removed > CLOSED_SESSIONS_MAX then
      match findOldestClosed entries with
      | some (k, _) => removeOldLoop (mapErase entries k) (removed + 1) fuel
      | none => (entries, removed)
    else (entries, removed)

/-- `SessionRecord.removeOldSessions()`: skipped entirely within
`_cleanupInterval` of the previous cleanup; otherwise runs the removal
loop and, when anything was removed, updates `_lastCleanup`.  Returns the
mutated record and `removedCount`. -/
def removeOldSessions (r : SessionRecord) (now : Int) : SessionRecord × Nat :=
  if now - r.lastCleanup < cleanupInterval then (r, 0)
  else
    let res := removeOldLoop r.sessions 0 r.sessions.length
    if res.2 > 0 then ({ sessions := res.1, lastCleanup := now }, res.2)
    else ({ r with sessions := res.1 }, res.2)

/-- The sequence of `(key, closed)` pairs deleted by `removeOldLoop`, in
deletion order (a specification-side replay of the loop). -/
def evictionTrace : List (Bytes × SessionEntry) → Nat → Nat → List (Bytes × Int)
  | _, _, 0 => []
  | entries, removed, fuel + 1 =>
    if (entries.length : Int) - removed > CLOSED_SESSIONS_MAX then
      match findOldestClosed entries with
      | some (k, t) => (k, t) :: evictionTrace (mapErase entries k) (removed + 1) fuel
      | none => []
    else []

/-- `SessionCipher.storeRecord` mutates the record via
`record.removeOldSessions()` before handing it to storage. -/
def storeRecord (r : SessionRecord) (now : Int) : SessionRecord :=
  (removeOldSessions r now).1

/-! ## `SessionCipher.fillMessageKeys` (`session_cipher.js`)

The class body defines `fillMessageKeys` twice; the second definition
(lines 381–396) shadows the first (lines 136–163), so the second is the
one every call site (`encrypt`, `doDecryptWhisperMessage`,
`maybeStepRatchet`) invokes. -/

/-- The tail-recursion of the effective `fillMessageKeys`, driven by a
structural `fuel` so the definition stays kernel-computable; the guards
bound the real recursion depth by the counter gap, and the wrapper below
passes exactly that gap as fuel, so the `fuel = 0` fallthrough (which
would require another step after the gap is exhausted) is unreachable. -/
def fillGo (hmac : Bytes → Bytes → Bytes) (counter : Int) :
    Chain → Nat → Except SigErr Chain
  | chain, fuel =>
    if chain.chainKey.counter ≥ counter then .ok chain
    else if counter - chain.chainKey.counter > 2000 then
      .error (.sessionError "Over 2000 messages into the future!")
    else
      match chain.chainKey.key with
      | none => .error (.sessionError "Chain closed")
      | some key =>
        let chain' : Chain :=
          { chain with
            messageKeys :=
              mapInsert chain.messageKeys (chain.chainKey.counter + 1)
                (calculateMAC hmac key [1]),
            chainKey :=
              { counter := chain.chainKey.counter + 1,
                key := some (calculateMAC hmac key [2]) } }
        match fuel with
        | 0 => .ok chain'
        | fuel + 1 => fillGo hmac counter chain' fuel

/-- The effective `SessionCipher.fillMessageKeys(chain, counter)` (second,
shadowing definition): the single-byte-HMAC schedule, recursing until the
chain-key counter reaches the target. -/
def fillMessageKeys (hmac : Bytes → Bytes → Bytes) (chain : Chain)
    (counter : Int) : Except SigErr Chain :=
  fillGo hmac counter chain ((counter - chain.chainKey.counter).toNat)

/-- The `while` loop of the first, shadowed `fillMessageKeys` definition,
with the loop-invariant `key` binding read once before the loop. -/
def shadowedLoop (hmac : Bytes → Bytes → Bytes) (key : Bytes) (chain : Chain)
    (counter : Int) : Nat → Except SigErr Chain
  | 0 => .ok chain
  | fuel + 1 =>
    if chain.chainKey.counter < counter then
      match deriveSecrets hmac key (bufAlloc 32) (strBytes "WhisperMessageKeys") none with
      | .error e => .error e
      | .ok derived =>
        let chain' : Chain :=
          { chain with
            messageKeys :=
              mapInsert chain.messageKeys (chain.chainKey.counter + 1)
                (derived.headD []),
            chainKey :=
              { counter := chain.chainKey.counter + 1,
                key := some (calculateMAC hmac key [1]) } }
        shadowedLoop hmac key chain' counter fuel
    else .ok chain

/-- The first, shadowed `fillMessageKeys` definition (lines 136–163): it
derives message keys with HKDF (`deriveSecrets`) and steps the chain key
with `HMAC(key, 0x01)`.  It is never invoked; kept only to witness the
shadowing. -/
def fillMessageKeysShadowed (hmac : Bytes → Bytes → Bytes) (chain : Chain)
    (counter : Int) : Except SigErr Chain :=
  if chain.messageKeys.length ≥ 2000 then
    .error (.genericError "Too many message keys for chain")
  else if chain.chainKey.counter ≥ counter then .ok chain
  else if counter - chain.chainKey.counter > 2000 then
    .error (.genericError "Gap between counters too large")
  else
    match chain.chainKey.key with
    | none => .ok chain
    | some key => shadowedLoop hmac key chain counter 2000

/-- One step of the symmetric-ratchet schedule, as the spec words it:
store `HMAC(chainKey.key, 0x01)` under `counter+1`, replace the chain key
by `HMAC(chainKey.key, 0x02)`, increment the counter. -/
def chainStep (hmac : Bytes → Bytes → Bytes) (c : Chain) : Chain :=
  match c.chainKey.key with
  | none => c
  | some key =>
    { c with
      messageKeys := mapInsert c.messageKeys (c.chainKey.counter + 1) (hmac key [1]),
      chainKey :=
        { counter := c.chainKey.counter + 1, key := some (hmac key [2]) } }

/-- `n` iterations of `chainStep`. -/
def iterChainStep (hmac : Bytes → Bytes → Bytes) (c : Chain) : Nat → Chain
  | 0 => c
  | n + 1 => iterChainStep hmac (chainStep hmac c) n

/-! ## Wire messages and the cipher environment -/

/-- The decoded `WhisperMessage` protobuf record. -/
structure WhisperMsg where
  ephemeralKey : Bytes
  counter : Int
  previousCounter : Int
  ciphertext : Bytes
deriving Repr, DecidableEq

/-- The `PreKeyWhisperMessage` protobuf record as `encrypt` builds it
(`preKeyId` is only set when truthy). -/
structure PreKeyWhisperMsg where
  identityKey : Bytes
  registrationId : Int
  baseKey : Bytes
  signedPreKeyId : Int
  preKeyId : Option Int
  message : Bytes
deriving Repr, DecidableEq

/-- `SessionCipher._encodeTupleByte(n1, n2)`. -/
def encodeTupleByte (n1 n2 : Nat) : Except SigErr Nat :=
  if n1 > 15 ∨ n2 > 15 then .error (.typeError "Numbers must be 4 bits or less")
  else .ok ((n1 <<< 4) ||| n2)

/-- `SessionCipher._decodeTupleByte(b)`. -/
def decodeTupleByte (b : Nat) : Nat × Nat := (b >>> 4, b &&& 0xf)

/-- The external collaborators of a `SessionCipher` call, bundled:
crypto primitives, codecs, the fresh ratchet key pair, the address, our
identity, and the storage answers (`isTrustedIdentity`,
`getOurRegistrationId`). -/
structure CipherEnv where
  hmac : Bytes → Bytes → Bytes
  curveAgree : Bytes → Bytes → Bytes
  aesEnc : Bytes → Bytes → Bytes → Bytes
  aesDec : Bytes → Bytes → Bytes → Except SigErr Bytes
  encodeWhisper : WhisperMsg → Bytes
  decodeWhisper : Bytes → Except SigErr WhisperMsg
  encodePreKey : PreKeyWhisperMsg → Bytes
  freshKp : KeyPair
  addrId : String
  ourIdentityKey : KeyPair
  isTrusted : Bytes → Bool
  ourRegistrationId : Int

/-! ## Ratchet stepping (`session_cipher.js`) -/

/-- `SessionCipher.calculateRatchet(session, remoteKey, sending)`. -/
def calculateRatchet (env : CipherEnv) (session : SessionEntry)
    (remoteKey : Bytes) (sending : Bool) : Except SigErr SessionEntry :=
  let ratchet := session.currentRatchet
  let sharedSecret := env.curveAgree remoteKey ratchet.ephemeralKeyPair.privKey
  match deriveSecrets env.hmac sharedSecret ratchet.rootKey
      (strBytes "WhisperRatchet") (some 2) with
  | .error e => .error e
  | .ok masterKey =>
    let chainKeyId := if sending then ratchet.ephemeralKeyPair.pubKey else remoteKey
    match addChain session chainKeyId
        { chainKey := { counter := -1, key := some (masterKey.getD 1 []) },
          messageKeys := [],
          chainType := if sending then ChainType.sending else ChainType.receiving } with
    | .error e => .error e
    | .ok session' =>
      .ok { session' with
            currentRatchet := { session'.currentRatchet with rootKey := masterKey.getD 0 [] } }

/-- The tail of `maybeStepRatchet` after the previous receiving chain has
been closed: receiving-side DH ratchet, `previousCounter` bookkeeping,
fresh ephemeral key, sending-side DH ratchet, `lastRemoteEphemeralKey`. -/
def maybeStepRatchetRest (env : CipherEnv) (session1 : SessionEntry)
    (remoteKey : Bytes) : Except SigErr Unit × SessionEntry :=
  match calculateRatchet env session1 remoteKey false with
  | .error e => (.error e, session1)
  | .ok session2 =>
    match getChain session2 session2.currentRatchet.ephemeralKeyPair.pubKey with
    | some prevCounterChain =>
      let session3 :=
        { session2 with
          currentRatchet :=
            { session2.currentRatchet with
              previousCounter := prevCounterChain.chainKey.counter } }
      match deleteChain session3 session3.currentRatchet.ephemeralKeyPair.pubKey with
      | .error e => (.error e, session3)
      | .ok session3' =>
        let session4 :=
          { session3' with
            currentRatchet :=
              { session3'.currentRatchet with ephemeralKeyPair := env.freshKp } }
        match calculateRatchet env session4 remoteKey true with
        | .error e => (.error e, session4)
        | .ok session5 =>
          (.ok (),
            { session5 with
              currentRatchet :=
                { session5.currentRatchet with lastRemoteEphemeralKey := remoteKey } })
    | none =>
      let session4 :=
        { session2 with
          currentRatchet :=
            { session2.currentRatchet with ephemeralKeyPair := env.freshKp } }
      match calculateRatchet env session4 remoteKey true with
      | .error e => (.error e, session4)
      | .ok session5 =>
        (.ok (),
          { session5 with
            currentRatchet :=
              { session5.currentRatchet with lastRemoteEphemeralKey := remoteKey } })

/-- `SessionCipher.maybeStepRatchet(session, remoteKey, previousCounter)`. -/
def maybeStepRatchet (env : CipherEnv) (session : SessionEntry)
    (remoteKey : Bytes) (previousCounter : Int) : Except SigErr Unit × SessionEntry :=
  if (getChain session remoteKey).isSome then (.ok (), session)
  else
    match getChain session session.currentRatchet.lastRemoteEphemeralKey with
    | some previousRatchet =>
      match fillMessageKeys env.hmac previousRatchet previousCounter with
      | .error e => (.error e, session)
      | .ok pr' =>
        let closed := { pr' with chainKey := { pr'.chainKey with key := none } }
        maybeStepRatchetRest env
          (setChain session session.currentRatchet.lastRemoteEphemeralKey closed)
          remoteKey
    | none => maybeStepRatchetRest env session remoteKey

/-! ## `SessionCipher.doDecryptWhisperMessage` -/

/-- `SessionCipher.doDecryptWhisperMessage(messageBuffer, session)`.
Returns the thrown error or the plaintext, always next to the (possibly
partially) mutated session. -/
def doDecryptWhisperMessage (env : CipherEnv) (messageBuffer : Bytes)
    (session : SessionEntry) : Except SigErr Bytes × SessionEntry :=
  let versions := decodeTupleByte (messageBuffer.headD 0)
  if versions.2 > 3 ∨ versions.1 < 3 then
    (.error (.genericError "Incompatible version number on WhisperMessage"), session)
  else
    let messageProto := (messageBuffer.drop 1).take (messageBuffer.length - 9)
    match env.decodeWhisper messageProto with
    | .error e => (.error e, session)
    | .ok message =>
      match maybeStepRatchet env session message.ephemeralKey message.previousCounter with
      | (.error e, s1) => (.error e, s1)
      | (.ok _, s1) =>
        match getChain s1 message.ephemeralKey with
        | none =>
          (.error (.typeError "Cannot read properties of undefined (reading chainType)"), s1)
        | some chain =>
          if chain.chainType = ChainType.sending then
            (.error (.genericError "Tried to decrypt on a sending chain"), s1)
          else
            match fillMessageKeys env.hmac chain message.counter with
            | .error e => (.error e, s1)
            | .ok chainF =>
              let s2 := setChain s1 message.ephemeralKey chainF
              match mapLookup chainF.messageKeys message.counter with
              | none =>
                (.error (.messageCounterError "Key used already or never filled"), s2)
              | some messageKey =>
                let chainE :=
                  { chainF with
                    messageKeys := mapErase chainF.messageKeys message.counter }
                let s3 := setChain s2 message.ephemeralKey chainE
                match deriveSecrets env.hmac messageKey (bufAlloc 32)
                    (strBytes "WhisperMessageKeys") none with
                | .error e => (.error e, s3)
                | .ok keys =>
                  match encodeTupleByte 3 3 with
                  | .error e => (.error e, s3)
                  | .ok vByte =>
                    let macInput :=
                      bufSet
                        (bufSetByte
                          (bufSet
                            (bufSet (bufAlloc (messageProto.length + 33 * 2 + 1)) 0
                              s3.indexInfo.remoteIdentityKey)
                            33 env.ourIdentityKey.pubKey)
                          (33 * 2) vByte)
                        (33 * 2 + 1) messageProto
                    let mac := messageBuffer.drop (messageBuffer.length - 8)
                    match verifyMAC env.hmac macInput (keys.getD 1 []) mac 8 with
                    | .error e => (.error e, s3)
                    | .ok _ =>
                      match env.aesDec (keys.getD 0 []) message.ciphertext
                          ((keys.getD 2 []).take 16) with
                      | .error e => (.error e, s3)
                      | .ok plaintext =>
                        (.ok plaintext, { s3 with pendingPreKey := none })

/-! ## `SessionCipher.encrypt` -/

/-- What a successful `encrypt` returns to the caller. -/
structure EncryptResult where
  type : Nat
  body : Bytes
  registrationId : Option Int
deriving Repr, DecidableEq

/-- The body of `SessionCipher.encrypt(data)` once inside the job queue,
with the storage interactions (`getRecord`, `getOurIdentity`,
`isTrustedIdentity`, `getOurRegistrationId`, `Date.now`) supplied through
`env`, `record` and `now`.  Besides the caller-visible `EncryptResult` it
returns the built `WhisperMessage` record and inner frame (`result` in the
source) so that theorems can speak about them, and the stored record. -/
def encryptCore (env : CipherEnv) (now : Int) (record? : Option SessionRecord)
    (data : Bytes) :
    Except SigErr (WhisperMsg × Bytes × EncryptResult) × Option SessionRecord :=
  match record? with
  | none => (.error (.sessionError "No sessions"), none)
  | some record =>
    match getOpenSessionK record with
    | none => (.error (.sessionError "No open session"), some record)
    | some (skey, session) =>
      let remoteIdentityKey := session.indexInfo.remoteIdentityKey
      if ¬env.isTrusted remoteIdentityKey then
        (.error (.untrustedIdentityKeyError env.addrId remoteIdentityKey), some record)
      else
        match getChain session session.currentRatchet.ephemeralKeyPair.pubKey with
        | none =>
          (.error (.typeError "Cannot read properties of undefined (reading chainType)"),
            some record)
        | some chain =>
          if chain.chainType = ChainType.receiving then
            (.error (.genericError "Tried to encrypt on a receiving chain"), some record)
          else
            match fillMessageKeys env.hmac chain (chain.chainKey.counter + 1) with
            | .error e => (.error e, some record)
            | .ok chainF =>
              let session1 :=
                setChain session session.currentRatchet.ephemeralKeyPair.pubKey chainF
              let record1 := recordSet record skey session1
              match mapLookup chainF.messageKeys chainF.chainKey.counter with
              | none => (.error (.typeError "Expected Buffer instead of: undefined"),
                  some record1)
              | some seed =>
                match engineDeriveSecrets env.hmac seed (bufAlloc 32)
                    (strBytes "WhisperMessageKeys") none with
                | .error e => (.error e, some record1)
                | .ok keys =>
                  let chainD :=
                    { chainF with
                      messageKeys := mapErase chainF.messageKeys chainF.chainKey.counter }
                  let session2 :=
                    setChain session1 session1.currentRatchet.ephemeralKeyPair.pubKey chainD
                  let record2 := recordSet record1 skey session2
                  let msg : WhisperMsg :=
                    { ephemeralKey := session2.currentRatchet.ephemeralKeyPair.pubKey,
                      counter := chainD.chainKey.counter,
                      previousCounter := session2.currentRatchet.previousCounter,
                      ciphertext :=
                        env.aesEnc (keys.getD 0 []) data ((keys.getD 2 []).take 16) }
                  let msgBuf := env.encodeWhisper msg
                  match encodeTupleByte 3 3 with
                  | .error e => (.error e, some record2)
                  | .ok vByte =>
                    let macInput :=
                      bufSet
                        (bufSetByte
                          (bufSet
                            (bufSet (bufAlloc (msgBuf.length + 33 * 2 + 1)) 0
                              env.ourIdentityKey.pubKey)
                            33 session2.indexInfo.remoteIdentityKey)
                          (33 * 2) vByte)
                        (33 * 2 + 1) msgBuf
                    let mac := calculateMAC env.hmac (keys.getD 1 []) macInput
                    let result :=
                      bufSet
                        (bufSet (bufSetByte (bufAlloc (msgBuf.length + 9)) 0 vByte)
                          1 msgBuf)
                        (msgBuf.length + 1) (mac.take 8)
                    let record3 := storeRecord record2 now
                    match session2.pendingPreKey with
                    | some ppk =>
                      let preKeyMsg : PreKeyWhisperMsg :=
                        { identityKey := env.ourIdentityKey.pubKey,
                          registrationId := env.ourRegistrationId,
                          baseKey := ppk.baseKey,
                          signedPreKeyId := ppk.signedKeyId,
                          preKeyId :=
                            match ppk.preKeyId with
                            | some i => if i = 0 then none else some i
                            | none => none,
                          message := result }
                      (.ok (msg, result,
                        { type := 3,
                          body := vByte :: env.encodePreKey preKeyMsg,
                          registrationId := session2.registrationId }), some record3)
                    | none =>
                      (.ok (msg, result,
                        { type := 1, body := result,
                          registrationId := session2.registrationId }), some record3)

/-- `SessionCipher.encrypt(data)` as the caller sees it: the projection of
`encryptCore` onto `{type, body, registrationId}`. -/
def encrypt (env : CipherEnv) (now : Int) (record? : Option SessionRecord)
    (data : Bytes) : Except SigErr EncryptResult × Option SessionRecord :=
  match encryptCore env now record? data with
  | (.ok (_, _, out), r) => (.ok out, r)
  | (.error e, r) => (.error e, r)

/-! ## `SessionCipher.decryptWhisperMessage` -/

/-- The `for (const session of sessions)` loop of
`SessionCipher.decryptWithSessions`: try each session in order; a failed
attempt keeps its in-place mutations of that session. -/
def decryptWithSessionsLoop (env : CipherEnv) (now : Int) (data : Bytes) :
    List (Bytes × SessionEntry) → SessionRecord →
    Except SigErr (Bytes × SessionEntry × Bytes) × SessionRecord
  | [], record => (.error (.sessionError "No matching sessions found for message"), record)
  | (k, sess) :: rest, record =>
    match doDecryptWhisperMessage env data sess with
    | (.ok plaintext, sess') =>
      let sess'' := { sess' with indexInfo := { sess'.indexInfo with used := now } }
      (.ok (k, sess'', plaintext), recordSet record k sess'')
    | (.error _, sess') => decryptWithSessionsLoop env now data rest (recordSet record k sess')

/-- `SessionCipher.decryptWithSessions(data, sessions)`. -/
def decryptWithSessions (env : CipherEnv) (now : Int) (data : Bytes)
    (sessions : List (Bytes × SessionEntry)) (record : SessionRecord) :
    Except SigErr (Bytes × SessionEntry × Bytes) × SessionRecord :=
  if sessions.isEmpty then (.error (.sessionError "No sessions available"), record)
  else decryptWithSessionsLoop env now data sessions record

/-- `SessionCipher.decryptWhisperMessage(data)` once inside the job queue:
trial decryption over `getSessions()` (most-recently-used first), then the
trusted-identity check on the winning session, then `storeRecord`. -/
def decryptWhisperMessage (env : CipherEnv) (now : Int)
    (record? : Option SessionRecord) (data : Bytes) :
    Except SigErr Bytes × Option SessionRecord :=
  match record? with
  | none => (.error (.sessionError "No session record"), none)
  | some record =>
    match decryptWithSessions env now data (getSessions record) record with
    | (.error e, rec') => (.error e, some rec')
    | (.ok (_, sess, plaintext), rec') =>
      let remoteIdentityKey := sess.indexInfo.remoteIdentityKey
      if ¬env.isTrusted remoteIdentityKey then
        (.error (.untrustedIdentityKeyError env.addrId remoteIdentityKey), some rec')
      else
        (.ok plaintext, some (storeRecord rec' now))

/-! ## Well-formedness of the embedded object graph

JS objects cannot bind the same key twice; association lists can, so the
theorems that rely on key uniqueness take these (decidable) invariants as
hypotheses. -/

/-- The message-key map of a chain binds each counter at most once. -/
def chainWF (c : Chain) : Prop := (c.messageKeys.map Prod.fst).Nodup

/-- A session's chain map binds each ratchet key at most once, and all its
chains are well formed. -/
def sessionWF (s : SessionEntry) : Prop :=
  (s.chains.map Prod.fst).Nodup ∧ ∀ p ∈ s.chains, chainWF p.2

/-- A record's session map binds each base key at most once. -/
def recordWF (r : SessionRecord) : Prop :=
  (r.sessions.map Prod.fst).Nodup ∧ ∀ p ∈ r.sessions, sessionWF p.2

instance (c : Chain) : Decidable (chainWF c) := by unfold chainWF; infer_instance

instance (s : SessionEntry) : Decidable (sessionWF s) := by
  unfold sessionWF chainWF; infer_instance

instance (r : SessionRecord) : Decidable (recordWF r) := by
  unfold recordWF sessionWF chainWF; infer_instance

/-! ## Concrete instantiations used by witnesses and counterexamples

A small executable stand-in for HMAC-SHA256 (32-byte output) and a cipher
environment built from it, plus concrete sessions, records and frames. -/

/-- Executable 32-byte keyed-digest stand-in used to instantiate the
abstract `hmac` parameter in witnesses. -/
def hmacT (key data : Bytes) : Bytes :=
  ((key.sum * 3 + data.sum * 7 + data.length) % 251) :: List.replicate 31 1

/-- A concrete cipher environment over `hmacT` with identity codecs. -/
def envT : CipherEnv :=
  { hmac := hmacT
    curveAgree := fun _ _ => bufAlloc 32
    aesEnc := fun _ d _ => d
    aesDec := fun _ ct _ => .ok ct
    encodeWhisper := fun m => m.ciphertext ++ [m.counter.toNat]
    decodeWhisper := fun _ =>
      .ok { ephemeralKey := [9], counter := 0, previousCounter := 0, ciphertext := [42] }
    encodePreKey := fun p => p.message
    freshKp := { pubKey := [13], privKey := [14] }
    addrId := "addr.1"
    ourIdentityKey := { pubKey := List.replicate 33 1, privKey := List.replicate 32 3 }
    isTrusted := fun _ => true
    ourRegistrationId := 99 }

/-- `envT` with a storage that distrusts every identity. -/
def envU : CipherEnv := { envT with isTrusted := fun _ => false }

/-- An open session holding one receiving chain for ephemeral key `[9]`. -/
def sessT : SessionEntry :=
  { registrationId := some 11
    currentRatchet :=
      { ephemeralKeyPair := { pubKey := [7], privKey := [8] }
        lastRemoteEphemeralKey := [9]
        previousCounter := 0
        rootKey := bufAlloc 32 }
    indexInfo :=
      { baseKey := [1], baseKeyType := 2, closed := -1, used := 5, created := 0
        remoteIdentityKey := List.replicate 33 2 }
    pendingPreKey := none
    chains :=
      [([9], { chainKey := { counter := -1, key := some (List.replicate 32 5) },
               messageKeys := [], chainType := ChainType.receiving })] }

/-- An inner WhisperMessage frame whose truncated MAC is wrong for
`sessT`/`envT`. -/
def frameBad : Bytes := 0x33 :: 77 :: [0, 0, 0, 0, 0, 0, 0, 0]

/-- The same frame with the correct truncated MAC
(`hmacT`-computed over `remoteIdentityKey ‖ ourIdentityPub ‖ 0x33 ‖ proto`). -/
def frameGood : Bytes := 0x33 :: 77 :: [250, 1, 1, 1, 1, 1, 1, 1]

/-- An open session holding one sending chain under the current ratchet
key `[7]`. -/
def sessE : SessionEntry :=
  { sessT with
    chains :=
      [([7], { chainKey := { counter := -1, key := some (List.replicate 32 6) },
               messageKeys := [], chainType := ChainType.sending })] }

/-- A one-session record ready for `encrypt`. -/
def recE : SessionRecord := { sessions := [([1], sessE)], lastCleanup := 1000 }

/-- A one-session record ready for `decryptWhisperMessage` of
`frameGood`. -/
def recD : SessionRecord := { sessions := [([1], sessT)], lastCleanup := 1000 }

/-- A closed session whose `indexInfo.closed` is `i + 1`. -/
def mkClosedSession (i : Nat) : SessionEntry :=
  { sessT with indexInfo := { sessT.indexInfo with closed := (i : Int) + 1, baseKey := [i] } }

/-- 42 closed sessions with distinct ascending close times; `_lastCleanup`
far in the past. -/
def rec42 : SessionRecord :=
  { sessions := (List.range 42).map (fun i => ([i], mkClosedSession i)), lastCleanup := 0 }

/-- An open session whose `registrationId` is not a number. -/
def sessNoReg : SessionEntry :=
  { sessT with
    registrationId := none
    indexInfo := { sessT.indexInfo with baseKey := [3] } }

/-- A record with two open sessions: the first lacks a numeric
`registrationId`, the second has one. -/
def recTwoOpen : SessionRecord :=
  { sessions := [([3], sessNoReg), ([1], sessT)], lastCleanup := 0 }

/-- A fresh receiving chain (counter −1, live key). -/
def chainW : Chain :=
  { chainKey := { counter := -1, key := some (List.replicate 32 5) },
    messageKeys := [], chainType := ChainType.receiving }

/-- A closed receiving chain (key erased). -/
def chainClosed : Chain :=
  { chainKey := { counter := 0, key := none },
    messageKeys := [], chainType := ChainType.receiving }

/-- The record stored by the first `encrypt` over `recE` (sending chain
advanced to counter 0, message key consumed). -/
def recE1 : SessionRecord :=
  { sessions := [([1],
      { registrationId := some 11
        currentRatchet :=
          { ephemeralKeyPair := { pubKey := [7], privKey := [8] }
            lastRemoteEphemeralKey := [9]
            previousCounter := 0
            rootKey := bufAlloc 32 }
        indexInfo :=
          { baseKey := [1], baseKeyType := 2, closed := -1, used := 5, created := 0
            remoteIdentityKey := List.replicate 33 2 }
        pendingPreKey := none
        chains :=
          [([7], { chainKey := { counter := 0, key := some (89 :: List.replicate 31 1) }
                   messageKeys := [], chainType := ChainType.sending })] })]
    lastCleanup := 1000 }

/-- `sessT` after the trial decryption of `frameGood` at `now = 2000`:
`used` bumped, receiving chain stepped to counter 0, message key consumed. -/
def sessM : SessionEntry :=
  { sessT with
    indexInfo := { sessT.indexInfo with used := 2000 }
    chains :=
      [([9], { chainKey := { counter := 0, key := some (244 :: List.replicate 31 1) }
               messageKeys := [], chainType := ChainType.receiving })] }

/-- `recD` after that trial decryption: the mutated session written back. -/
def recM : SessionRecord := { sessions := [([1], sessM)], lastCleanup := 1000 }

/-! # Theorems

First, library lemmas about the association-list maps, then the
symmetric-ratchet lemmas, then one theorem per claim (with witnesses and
counterexamples). -/

@[simp] theorem mapLookup_nil {κ α : Type} [DecidableEq κ] (k : κ) :
    mapLookup ([] : List (κ × α)) k = none := rfl

@[simp] theorem mapLookup_cons {κ α : Type} [DecidableEq κ] (k' k : κ) (v : α)
    (rest : List (κ × α)) :
    mapLookup ((k', v) :: rest) k = if k' = k then some v else mapLookup rest k := rfl

theorem mapLookup_mapInsert_self {κ α : Type} [DecidableEq κ]
    (m : List (κ × α)) (k : κ) (v : α) : mapLookup (mapInsert m k v) k = some v := by
  induction m with
  | nil => simp [mapInsert]
  | cons hd tl ih =>
    obtain ⟨k', v'⟩ := hd
    by_cases h : k' = k <;> simp [mapInsert, h, ih]

theorem mapLookup_mapInsert_ne {κ α : Type} [DecidableEq κ]
    (m : List (κ × α)) (k k' : κ) (v : α) (h : k ≠ k') :
    mapLookup (mapInsert m k v) k' = mapLookup m k' := by
  induction m with
  | nil => simp [mapInsert, mapLookup, h]
  | cons hd tl ih =>
    obtain ⟨k0, v0⟩ := hd
    by_cases h0 : k0 = k
    · subst h0
      simp [mapInsert, mapLookup, h]
    · simp only [mapInsert, if_neg h0, mapLookup_cons, ih]

theorem mapLookup_eq_none_of_not_mem {κ α : Type} [DecidableEq κ]
    (m : List (κ × α)) (k : κ) (h : k ∉ m.map Prod.fst) : mapLookup m k = none := by
  induction m with
  | nil => rfl
  | cons hd tl ih =>
    obtain ⟨k', v'⟩ := hd
    simp only [List.map_cons, List.mem_cons] at h
    push_neg at h
    have hk : k' ≠ k := fun he => h.1 he.symm
    simp [mapLookup, hk, ih h.2]

theorem mapLookup_mapErase_self {κ α : Type} [DecidableEq κ]
    (m : List (κ × α)) (hnd : (m.map Prod.fst).Nodup) (k : κ) :
    mapLookup (mapErase m k) k = none := by
  induction m with
  | nil => simp [mapErase]
  | cons hd tl ih =>
    obtain ⟨k', v'⟩ := hd
    simp only [List.map_cons, List.nodup_cons] at hnd
    by_cases h : k' = k
    · subst h
      simp only [mapErase, if_pos rfl]
      exact mapLookup_eq_none_of_not_mem tl k' hnd.1
    · simp only [mapErase, if_neg h, mapLookup_cons, if_neg h]
      exact ih hnd.2

/-- If the key is already bound to the same value, JS assignment is a no-op. -/
theorem mapInsert_self_of_lookup {κ α : Type} [DecidableEq κ]
    (m : List (κ × α)) (k : κ) (v : α) (h : mapLookup m k = some v) :
    mapInsert m k v = m := by
  induction m with
  | nil => simp [mapLookup] at h
  | cons hd tl ih =>
    obtain ⟨k', v'⟩ := hd
    by_cases hk : k' = k
    · subst hk
      have hv : v' = v := by simpa using h
      simp [mapInsert, hv]
    · simp only [mapLookup_cons, if_neg hk] at h
      simp [mapInsert, hk, ih h]

theorem mapErase_sublist {κ α : Type} [DecidableEq κ] (m : List (κ × α)) (k : κ) :
    (mapErase m k).Sublist m := by
  induction m with
  | nil => simp [mapErase]
  | cons hd tl ih =>
    obtain ⟨k', v'⟩ := hd
    by_cases h : k' = k
    · simp only [mapErase, if_pos h]
      exact List.sublist_cons_self _ _
    · simp only [mapErase, if_neg h]
      exact ih.cons₂ _

theorem mapErase_length_lt {κ α : Type} [DecidableEq κ]
    (m : List (κ × α)) (k : κ) (hk : (mapLookup m k).isSome) :
    (mapErase m k).length < m.length := by
  induction m with
  | nil => simp [mapLookup] at hk
  | cons hd tl ih =>
    obtain ⟨k', v'⟩ := hd
    by_cases h : k' = k
    · simp [mapErase, h]
    · simp only [mapLookup_cons, if_neg h] at hk
      simpa [mapErase, h] using ih hk

theorem mem_keys_mapInsert {κ α : Type} [DecidableEq κ]
    (m : List (κ × α)) (k a : κ) (v : α)
    (h : a ∈ (mapInsert m k v).map Prod.fst) : a ∈ m.map Prod.fst ∨ a = k := by
  induction m with
  | nil => simpa [mapInsert] using h
  | cons hd tl ih =>
    obtain ⟨k', v'⟩ := hd
    by_cases hk : k' = k
    · have h' : a = k ∨ a ∈ tl.map Prod.fst := by
        simpa [mapInsert, hk] using h
      rcases h' with h' | h'
      · exact .inr h'
      · exact .inl (by simp [h'])
    · simp only [mapInsert, if_neg hk, List.map_cons, List.mem_cons] at h ⊢
      rcases h with h | h
      · exact .inl (.inl h)
      · rcases ih h with h' | h'
        · exact .inl (.inr h')
        · exact .inr h'

theorem mapInsert_keys_nodup {κ α : Type} [DecidableEq κ]
    (m : List (κ × α)) (k : κ) (v : α) (h : (m.map Prod.fst).Nodup) :
    ((mapInsert m k v).map Prod.fst).Nodup := by
  induction m with
  | nil => simp [mapInsert]
  | cons hd tl ih =>
    obtain ⟨k', v'⟩ := hd
    simp only [List.map_cons, List.nodup_cons] at h
    by_cases hk : k' = k
    · subst hk
      simpa [mapInsert] using h
    · simp only [mapInsert, if_neg hk, List.map_cons, List.nodup_cons]
      refine ⟨fun hmem => ?_, ih h.2⟩
      rcases mem_keys_mapInsert tl k k' v hmem with h' | h'
      · exact h.1 h'
      · exact hk h'

/-! ## `fillMessageKeys` lemmas -/

/-- Success facts about `fillGo` under the fuel invariant `gap ≤ fuel`:
the chain type is preserved, the counter ends at `max(counter₀, target)`,
and key-uniqueness of the message-key map is preserved. -/
theorem fillGo_ok_spec (hmac : Bytes → Bytes → Bytes) (counter : Int) :
    ∀ (fuel : Nat) (chain c' : Chain),
      (counter - chain.chainKey.counter).toNat ≤ fuel →
      fillGo hmac counter chain fuel = .ok c' →
      c'.chainType = chain.chainType ∧
      c'.chainKey.counter = max chain.chainKey.counter counter ∧
      (chainWF chain → chainWF c') := by
  intro fuel
  induction fuel with
  | zero =>
    intro chain c' hgap hc
    rw [fillGo, if_pos (by omega)] at hc
    cases hc
    exact ⟨rfl, by omega, fun h => h⟩
  | succ fuel ih =>
    intro chain c' hgap hc
    rw [fillGo] at hc
    by_cases h1 : chain.chainKey.counter ≥ counter
    · rw [if_pos h1] at hc
      cases hc
      exact ⟨rfl, by omega, fun h => h⟩
    · rw [if_neg h1] at hc
      by_cases h2 : counter - chain.chainKey.counter > 2000
      · rw [if_pos h2] at hc
        cases hc
      · rw [if_neg h2] at hc
        cases hk : chain.chainKey.key with
        | none =>
          rw [hk] at hc
          cases hc
        | some key =>
          rw [hk] at hc
          dsimp only at hc
          obtain ⟨ht, hcnt, hwf⟩ := ih _ c' (by dsimp only; omega) hc
          refine ⟨ht, ?_, fun h => hwf (mapInsert_keys_nodup _ _ _ h)⟩
          dsimp only at hcnt
          omega

/-- Success facts about the effective `fillMessageKeys`. -/
theorem fillMessageKeys_ok_spec (hmac : Bytes → Bytes → Bytes) (chain : Chain)
    (counter : Int) :
    ∀ c', fillMessageKeys hmac chain counter = .ok c' →
      c'.chainType = chain.chainType ∧
      c'.chainKey.counter = max chain.chainKey.counter counter ∧
      (chainWF chain → chainWF c') :=
  fun c' hc => fillGo_ok_spec hmac counter _ chain c' (le_refl _) hc

/-- The counter and key of an iterated `chainStep`. -/
theorem iterChainStep_counter (hmac : Bytes → Bytes → Bytes) :
    ∀ (n : Nat) (c : Chain) (k : Bytes), c.chainKey.key = some k →
      (iterChainStep hmac c n).chainKey.counter = c.chainKey.counter + n ∧
      ∃ k', (iterChainStep hmac c n).chainKey.key = some k' := by
  intro n
  induction n with
  | zero =>
    intro c k hk
    exact ⟨by simp [iterChainStep], ⟨k, by simpa [iterChainStep] using hk⟩⟩
  | succ n ih =>
    intro c k hk
    have hstep : (chainStep hmac c).chainKey =
        { counter := c.chainKey.counter + 1, key := some (hmac k [2]) } := by
      simp [chainStep, hk]
    obtain ⟨h1, k', h2⟩ := ih (chainStep hmac c) (hmac k [2]) (by rw [hstep])
    refine ⟨?_, ⟨k', by simpa [iterChainStep] using h2⟩⟩
    show (iterChainStep hmac (chainStep hmac c) n).chainKey.counter = _
    rw [h1, hstep]
    push_cast
    ring

/-- `fillGo` with fuel equal to the gap is exactly that many iterations of
the single-byte-HMAC `chainStep`. -/
theorem fillGo_eq_iter (hmac : Bytes → Bytes → Bytes) (counter : Int) :
    ∀ (n : Nat) (chain : Chain) (k : Bytes),
      (counter - chain.chainKey.counter).toNat = n →
      chain.chainKey.counter < counter →
      counter - chain.chainKey.counter ≤ 2000 →
      chain.chainKey.key = some k →
      fillGo hmac counter chain n = .ok (iterChainStep hmac chain n) := by
  intro n
  induction n with
  | zero =>
    intro chain k hn hlt _ _
    omega
  | succ n ih =>
    intro chain k hn hlt hle hk
    rw [fillGo, if_neg (by omega), if_neg (by omega)]
    simp only [hk]
    have hstep : chainStep hmac chain =
        { chain with
          messageKeys :=
            mapInsert chain.messageKeys (chain.chainKey.counter + 1)
              (calculateMAC hmac k [1]),
          chainKey :=
            { counter := chain.chainKey.counter + 1,
              key := some (calculateMAC hmac k [2]) } } := by
      simp [chainStep, hk, calculateMAC]
    have hiter : iterChainStep hmac chain (n + 1) =
        iterChainStep hmac (chainStep hmac chain) n := rfl
    rw [hiter, ← hstep]
    rcases Nat.eq_zero_or_pos n with h0 | hpos
    · subst h0
      have hcc : (chainStep hmac chain).chainKey.counter = counter := by
        rw [hstep]; simp; omega
      rw [fillGo, if_pos (by rw [hcc])]
      rfl
    · exact ih (chainStep hmac chain) (calculateMAC hmac k [2])
        (by rw [hstep]; simp; omega)
        (by rw [hstep]; simp; omega)
        (by rw [hstep]; simp; omega)
        (by rw [hstep])

/-- `fillMessageKeys` is exactly `(target − counter₀)` iterations of the
single-byte-HMAC `chainStep` whenever it must advance and can. -/
theorem fillMessageKeys_eq_iter_aux (hmac : Bytes → Bytes → Bytes) (counter : Int) :
    ∀ (n : Nat) (chain : Chain) (k : Bytes),
      (counter - chain.chainKey.counter).toNat = n →
      chain.chainKey.counter < counter →
      counter - chain.chainKey.counter ≤ 2000 →
      chain.chainKey.key = some k →
      fillMessageKeys hmac chain counter = .ok (iterChainStep hmac chain n) := by
  intro n chain k hn hlt hle hk
  rw [fillMessageKeys, hn]
  exact fillGo_eq_iter hmac counter n chain k hn hlt hle hk

/-- **C2.**  The `fillMessageKeys` actually invoked by `encrypt` and
`doDecryptWhisperMessage` (the second class-body definition, which shadows
the first, HKDF-based one — by construction `encryptCore`,
`doDecryptWhisperMessage` and `maybeStepRatchet` in this file call exactly
this definition) advances the chain one `chainStep` at a time until the
chain-key counter equals the target: each step stores
`HMAC(chainKey.key, 0x01)` in `messageKeys` under `counter + 1`, replaces
`chainKey.key` by `HMAC(chainKey.key, 0x02)`, and increments the counter
by 1. -/
theorem claim2_fillMessageKeys_single_byte_schedule
    (hmac : Bytes → Bytes → Bytes) (chain : Chain) (counter : Int) (k : Bytes)
    (h1 : chain.chainKey.counter < counter)
    (h2 : counter - chain.chainKey.counter ≤ 2000)
    (h3 : chain.chainKey.key = some k) :
    fillMessageKeys hmac chain counter =
      .ok (iterChainStep hmac chain (counter - chain.chainKey.counter).toNat) ∧
    (iterChainStep hmac chain
      (counter - chain.chainKey.counter).toNat).chainKey.counter = counter := by
  constructor
  · exact fillMessageKeys_eq_iter_aux hmac counter _ chain k rfl h1 h2 h3
  · have h := (iterChainStep_counter hmac
      ((counter - chain.chainKey.counter).toNat) chain k h3).1
    omega

/-- Witness for C2 at a concrete chain: filling `chainW` (counter −1) to
counter 2 is exactly three `chainStep`s. -/
theorem claim2_witness :
    fillMessageKeys hmacT chainW 2 =
      .ok (iterChainStep hmacT chainW (2 - chainW.chainKey.counter).toNat) ∧
    (iterChainStep hmacT chainW
      (2 - chainW.chainKey.counter).toNat).chainKey.counter = 2 :=
  claim2_fillMessageKeys_single_byte_schedule hmacT chainW 2
    (List.replicate 32 5) (by decide) (by decide) (by decide)

/-- **C8.**  `fillMessageKeys` returns the chain unchanged when
`chainKey.counter ≥ target`; fails with
`SessionError("Over 2000 messages into the future!")` when the gap exceeds
2000; and fails with `SessionError("Chain closed")` when the chain key has
been erased while the counter must still advance. -/
theorem claim8_fillMessageKeys_guards
    (hmac : Bytes → Bytes → Bytes) (chain : Chain) (counter : Int) :
    (chain.chainKey.counter ≥ counter →
      fillMessageKeys hmac chain counter = .ok chain) ∧
    (counter - chain.chainKey.counter > 2000 →
      fillMessageKeys hmac chain counter =
        .error (.sessionError "Over 2000 messages into the future!")) ∧
    (chain.chainKey.counter < counter → counter - chain.chainKey.counter ≤ 2000 →
      chain.chainKey.key = none →
      fillMessageKeys hmac chain counter = .error (.sessionError "Chain closed")) := by
  refine ⟨fun h => ?_, fun h => ?_, fun h1 h2 h3 => ?_⟩
  · rw [fillMessageKeys, fillGo, if_pos h]
  · rw [fillMessageKeys, fillGo, if_neg (by omega), if_pos h]
  · rw [fillMessageKeys, fillGo, if_neg (by omega), if_neg (by omega)]
    simp only [h3]

/-- Witness for C8: the three guard behaviours at concrete chains. -/
theorem claim8_witness :
    fillMessageKeys hmacT chainW (-1) = .ok chainW ∧
    fillMessageKeys hmacT chainW 2500 =
      .error (.sessionError "Over 2000 messages into the future!") ∧
    fillMessageKeys hmacT chainClosed 5 = .error (.sessionError "Chain closed") :=
  ⟨(claim8_fillMessageKeys_guards hmacT chainW (-1)).1 (by decide),
   (claim8_fillMessageKeys_guards hmacT chainW 2500).2.1 (by decide),
   (claim8_fillMessageKeys_guards hmacT chainClosed 5).2.2 (by decide) (by decide) rfl⟩

/-! ## Buffer-layout lemmas -/

theorem bufAlloc_length (n : Nat) : (bufAlloc n).length = n := by simp [bufAlloc]

/-- Writing `src` over the middle segment of a three-part buffer. -/
theorem bufSet_mid (a b c src : Bytes) (hb : b.length = src.length) :
    bufSet (a ++ b ++ c) a.length src = a ++ src ++ c := by
  have h1 : (a ++ b ++ c).take a.length = a := by
    rw [List.append_assoc]
    exact List.take_left a (b ++ c)
  have h2 : (a ++ b ++ c).drop (a.length + src.length) = c := by
    rw [← hb, ← List.length_append]
    exact List.drop_left (a ++ b) c
  unfold bufSet
  rw [h1, h2]

/-- `bufSetByte` is `bufSet` with a one-byte source. -/
theorem bufSetByte_eq_bufSet (buf : Bytes) (i v : Nat) :
    bufSetByte buf i v = bufSet buf i [v] := rfl

/-- The shape of the `deriveSecrets` info array after the initial writes:
32 zero bytes, the info, the byte `1`. -/
theorem hkdfInfoArray1_shape (info : Bytes) :
    hkdfInfoArray1 info = List.replicate 32 0 ++ info ++ [1] := by
  unfold hkdfInfoArray1
  have hrep : (bufAlloc (info.length + 1 + 32) : Bytes) =
      List.replicate 32 0 ++ List.replicate info.length 0 ++ [0] := by
    simp only [bufAlloc]
    rw [← List.replicate_add, ← List.replicate_succ']
    congr 1
    omega
  have h32 : (32 : Nat) = (List.replicate 32 (0 : Nat)).length := by simp
  have h1 : bufSet (bufAlloc (info.length + 1 + 32)) 32 info =
      List.replicate 32 0 ++ info ++ [0] := by
    rw [hrep, h32]
    exact bufSet_mid _ _ _ _ (by simp)
  rw [h1, bufSetByte_eq_bufSet]
  have hidx : info.length + 32 = (List.replicate 32 (0:Nat) ++ info).length := by
    rw [List.length_append, List.length_replicate]
    omega
  rw [hidx]
  have := bufSet_mid (List.replicate 32 0 ++ info) [0] [] [1] (by simp)
  simpa using this

theorem hkdfInfoArray1_length (info : Bytes) :
    (hkdfInfoArray1 info).length = info.length + 33 := by
  rw [hkdfInfoArray1_shape]
  simp only [List.length_append, List.length_replicate, List.length_cons, List.length_nil]
  omega

/-- Dropping the 32-byte scratch prefix of the info array. -/
theorem hkdfInfoArray1_drop (info : Bytes) :
    (hkdfInfoArray1 info).drop 32 = info ++ [1] := by
  rw [hkdfInfoArray1_shape, List.append_assoc]
  exact List.drop_left' (by simp)

/-- The HKDF expand step performed on the info array: overwrite the
leading 32 bytes with `T` and the trailing byte with `v`. -/
theorem hkdfStepArray (T0 mid T : Bytes) (b v : Nat)
    (h0 : T0.length = 32) (hT : T.length = 32) :
    bufSetByte (bufSet (T0 ++ mid ++ [b]) 0 T) ((T0 ++ mid ++ [b]).length - 1) v =
      T ++ mid ++ [v] := by
  have h1 : bufSet (T0 ++ mid ++ [b]) 0 T = T ++ mid ++ [b] := by
    have h := bufSet_mid [] T0 (mid ++ [b]) T (by rw [h0, hT])
    simpa [List.append_assoc] using h
  rw [h1, bufSetByte_eq_bufSet]
  have hlen : (T0 ++ mid ++ [b]).length - 1 = (T ++ mid).length := by
    simp [h0, hT]
  rw [hlen]
  have h := bufSet_mid (T ++ mid) [b] [] [v] (by simp)
  simpa [List.append_assoc] using h

/-! ## `deriveSecrets` against the HKDF specification (C6) -/

theorem getLastD_one (a : Bytes) : List.getLastD [a] [] = a := rfl

theorem getLastD_two (a b : Bytes) : List.getLastD [a, b] [] = b := rfl

/-- `crypto.js`'s `deriveSecrets` computes the RFC-5869-style chunks for
explicit chunk counts 1–3. -/
theorem deriveSecrets_spec_take (hmac : Bytes → Bytes → Bytes)
    (input salt info : Bytes) (c : Int)
    (hLen : ∀ k d, (hmac k d).length = 32) (hs : salt.length = 32)
    (h1 : 1 ≤ c) (h3 : c ≤ 3) :
    deriveSecrets hmac input salt info (some c) =
      .ok ((hkdfChunksSpec hmac input salt info).take c.toNat) := by
  have hc : c = 1 ∨ c = 2 ∨ c = 3 := by omega
  rcases hc with hc | hc | hc <;> subst hc
  · unfold deriveSecrets
    rw [if_neg (by simp [hs])]
    simp only [jsOrThree]
    norm_num
    simp only [calculateMAC]
    rw [hkdfInfoArray1_drop]
    simp [hkdfChunksSpec, calculateMAC]
  · unfold deriveSecrets
    rw [if_neg (by simp [hs])]
    simp only [jsOrThree]
    norm_num
    simp only [calculateMAC]
    rw [hkdfInfoArray1_drop, hkdfInfoArray1_shape]
    rw [hkdfStepArray (List.replicate 32 0) info (hmac (hmac salt input) (info ++ [1])) 1 2
      (by simp) (hLen _ _)]
    simp [hkdfChunksSpec, calculateMAC]
  · unfold deriveSecrets
    rw [if_neg (by simp [hs])]
    simp only [jsOrThree]
    norm_num
    simp only [calculateMAC]
    rw [hkdfInfoArray1_drop, hkdfInfoArray1_shape]
    rw [hkdfStepArray (List.replicate 32 0) info (hmac (hmac salt input) (info ++ [1])) 1 2
      (by simp) (hLen _ _)]
    rw [hkdfStepArray (hmac (hmac salt input) (info ++ [1])) info
      (hmac (hmac salt input) (hmac (hmac salt input) (info ++ [1]) ++ info ++ [2])) 2 3
      (hLen _ _) (hLen _ _)]
    simp [hkdfChunksSpec, calculateMAC]

/-- `CryptoEngine.deriveSecrets` computes the same chunks for explicit
chunk counts 1–3. -/
theorem engineDeriveSecrets_spec_take (hmac : Bytes → Bytes → Bytes)
    (input salt info : Bytes) (c : Int)
    (hLen : ∀ k d, (hmac k d).length = 32) (hs : salt.length = 32)
    (h1 : 1 ≤ c) (h3 : c ≤ 3) :
    engineDeriveSecrets hmac input salt info (some c) =
      .ok ((hkdfChunksSpec hmac input salt info).take c.toNat) := by
  have hc : c = 1 ∨ c = 2 ∨ c = 3 := by omega
  rcases hc with hc | hc | hc <;> subst hc
  · unfold engineDeriveSecrets
    rw [if_neg (by simp [hs])]
    norm_num
    simp only [calculateMAC, engineExpand]
    rw [hkdfInfoArray1_drop]
    simp [hkdfChunksSpec, calculateMAC]
  · unfold engineDeriveSecrets
    rw [if_neg (by simp [hs])]
    norm_num
    simp only [calculateMAC]
    rw [hkdfInfoArray1_drop, hkdfInfoArray1_shape]
    simp only [engineExpand, List.singleton_append, List.cons_append, List.nil_append,
      getLastD_one, getLastD_two]
    rw [hkdfStepArray (List.replicate 32 0) info (hmac (hmac salt input) (info ++ [1])) 1 2
      (by simp) (hLen _ _)]
    simp [hkdfChunksSpec, calculateMAC]
  · unfold engineDeriveSecrets
    rw [if_neg (by simp [hs])]
    norm_num
    simp only [calculateMAC]
    rw [hkdfInfoArray1_drop, hkdfInfoArray1_shape]
    simp only [engineExpand, List.singleton_append, List.cons_append, List.nil_append,
      getLastD_one, getLastD_two]
    rw [hkdfStepArray (List.replicate 32 0) info (hmac (hmac salt input) (info ++ [1])) 1 2
      (by simp) (hLen _ _)]
    simp only [calculateMAC]
    rw [hkdfStepArray (hmac (hmac salt input) (info ++ [1])) info
      (hmac (hmac salt input) (hmac (hmac salt input) (info ++ [1]) ++ info ++ [2])) 2 (2 + 1)
      (hLen _ _) (hLen _ _)]
    simp [hkdfChunksSpec, calculateMAC]

/-- **C6 (amended).**  For a 32-byte salt and explicit `1 ≤ chunks ≤ 3`,
both `deriveSecrets` implementations return exactly `chunks` 32-byte
values following the iterative-expand schedule
`T(1) = HMAC(PRK, info ‖ 0x01)`, `T(i) = HMAC(PRK, T(i−1) ‖ info ‖ byte(i))`
with `PRK = HMAC(salt, input)`; both fail when the salt is not 32 bytes;
`CryptoEngine.deriveSecrets` fails for every `chunks` outside 1..3, but
`crypto.js`'s `deriveSecrets` treats `chunks = 0` (falsy) as 3 and only
fails for the other out-of-range values. -/
theorem claim6_deriveSecrets_amended (hmac : Bytes → Bytes → Bytes)
    (input salt info : Bytes) (c : Int)
    (hLen : ∀ k d, (hmac k d).length = 32) :
    (salt.length = 32 → 1 ≤ c → c ≤ 3 →
      deriveSecrets hmac input salt info (some c) =
        .ok ((hkdfChunksSpec hmac input salt info).take c.toNat) ∧
      engineDeriveSecrets hmac input salt info (some c) =
        .ok ((hkdfChunksSpec hmac input salt info).take c.toNat) ∧
      ((hkdfChunksSpec hmac input salt info).take c.toNat).length = c.toNat ∧
      (∀ T ∈ (hkdfChunksSpec hmac input salt info).take c.toNat, T.length = 32)) ∧
    (salt.length ≠ 32 →
      deriveSecrets hmac input salt info (some c) =
        .error (.genericError "Got salt of incorrect length") ∧
      engineDeriveSecrets hmac input salt info (some c) =
        .error (.typeError "salt must be a Buffer of length 32")) ∧
    ((c < 1 ∨ 3 < c) → c ≠ 0 →
      ∀ out, deriveSecrets hmac input salt info (some c) ≠ .ok out) ∧
    ((c < 1 ∨ 3 < c) →
      ∀ out, engineDeriveSecrets hmac input salt info (some c) ≠ .ok out) ∧
    deriveSecrets hmac input salt info (some 0) =
      deriveSecrets hmac input salt info (some 3) := by
  refine ⟨fun hs hge hle => ⟨deriveSecrets_spec_take hmac input salt info c hLen hs hge hle,
      engineDeriveSecrets_spec_take hmac input salt info c hLen hs hge hle, ?_, ?_⟩,
    fun hs => ⟨?_, ?_⟩, fun hrange hzero out => ?_, fun hrange out => ?_, ?_⟩
  · rw [List.length_take]
    have h3len : (hkdfChunksSpec hmac input salt info).length = 3 := by
      simp [hkdfChunksSpec, calculateMAC]
    rw [h3len]
    omega
  · intro T hT
    have hT' := List.mem_of_mem_take hT
    simp only [hkdfChunksSpec, List.mem_cons, List.mem_singleton,
      List.not_mem_nil, or_false] at hT'
    rcases hT' with h | h | h <;> subst h <;> exact hLen _ _
  · unfold deriveSecrets
    rw [if_pos hs]
  · unfold engineDeriveSecrets
    rw [if_pos hs]
  · unfold deriveSecrets
    by_cases hs : salt.length = 32
    · rw [if_neg (by simp [hs])]
      have hj : jsOrThree (some c) = c := by simp [jsOrThree, hzero]
      rw [hj, if_pos (by omega)]
      intro h
      cases h
    · rw [if_pos hs]
      intro h
      cases h
  · unfold engineDeriveSecrets
    by_cases hs : salt.length = 32
    · rw [if_neg (by simp [hs])]
      simp only [Option.getD]
      rw [if_pos (by omega)]
      intro h
      cases h
    · rw [if_pos hs]
      intro h
      cases h
  · unfold deriveSecrets
    rfl

/-- Counterexample to C6 as stated: `chunks = 0` lies outside 1..3, yet
`crypto.js`'s `deriveSecrets` does not fail — `chunks || 3` turns `0` into
`3` and three chunks are returned. -/
theorem claim6_counterexample :
    deriveSecrets hmacT [1] (bufAlloc 32) [7] (some 0) =
      .ok (hkdfChunksSpec hmacT [1] (bufAlloc 32) [7]) ∧
    ((0 : Int) < 1 ∨ 3 < (0 : Int)) := by
  constructor
  · decide
  · decide

/-- Witness for the amended C6 at concrete inputs (`chunks = 2`). -/
theorem claim6_witness :
    deriveSecrets hmacT [1] (bufAlloc 32) [7] (some 2) =
      .ok ((hkdfChunksSpec hmacT [1] (bufAlloc 32) [7]).take (2 : Int).toNat) ∧
    engineDeriveSecrets hmacT [1] (bufAlloc 32) [7] (some 2) =
      .ok ((hkdfChunksSpec hmacT [1] (bufAlloc 32) [7]).take (2 : Int).toNat) ∧
    ((hkdfChunksSpec hmacT [1] (bufAlloc 32) [7]).take (2 : Int).toNat).length =
      (2 : Int).toNat ∧
    (∀ T ∈ (hkdfChunksSpec hmacT [1] (bufAlloc 32) [7]).take (2 : Int).toNat,
      T.length = 32) :=
  (claim6_deriveSecrets_amended hmacT [1] (bufAlloc 32) [7] 2
    (fun k d => by simp [hmacT])).1 (by decide) (by decide) (by decide)

/-! ## `removeOldSessions` lemmas (C3) -/

theorem mapLookup_isSome_of_mem {κ α : Type} [DecidableEq κ]
    (m : List (κ × α)) (k : κ) (v : α) (h : (k, v) ∈ m) :
    (mapLookup m k).isSome := by
  induction m with
  | nil => cases h
  | cons hd tl ih =>
    obtain ⟨k', v'⟩ := hd
    rcases List.mem_cons.mp h with h' | h'
    · cases h'
      simp [mapLookup]
    · by_cases hk : k' = k
      · simp [mapLookup, hk]
      · simp only [mapLookup_cons, if_neg hk]
        exact ih h'

/-- The oldest-closed scan keeps an incumbent and never raises its time. -/
theorem oldestScan_mono (entries : List (Bytes × SessionEntry)) :
    ∀ q1 : Bytes × Int, ∃ q, entries.foldl oldestScanStep (some q1) = some q ∧ q.2 ≤ q1.2 := by
  induction entries with
  | nil => exact fun q1 => ⟨q1, rfl, le_refl _⟩
  | cons hd tl ih =>
    intro q1
    by_cases hc : hd.2.indexInfo.closed ≠ -1 ∧ beatsOldest (some q1) hd.2.indexInfo.closed
    · obtain ⟨q, hq, hle⟩ := ih (hd.1, hd.2.indexInfo.closed)
      refine ⟨q, ?_, ?_⟩
      · simpa [oldestScanStep, hc] using hq
      · have : hd.2.indexInfo.closed < q1.2 := by
          simpa [beatsOldest] using hc.2
        omega
    · obtain ⟨q, hq, hle⟩ := ih q1
      refine ⟨q, ?_, hle⟩
      simpa [oldestScanStep, hc] using hq

/-- A successful oldest-closed scan result is either the incumbent or a
closed entry of the list. -/
theorem oldestScan_mem (entries : List (Bytes × SessionEntry)) :
    ∀ (acc : Option (Bytes × Int)) (q : Bytes × Int),
      entries.foldl oldestScanStep acc = some q →
      acc = some q ∨
        ∃ s, (q.1, s) ∈ entries ∧ s.indexInfo.closed = q.2 ∧ q.2 ≠ -1 := by
  induction entries with
  | nil => exact fun acc q h => .inl h
  | cons hd tl ih =>
    intro acc q h
    rcases ih (oldestScanStep acc hd) q h with h' | h'
    · by_cases hc : hd.2.indexInfo.closed ≠ -1 ∧ beatsOldest acc hd.2.indexInfo.closed
      · right
        have hq : q = (hd.1, hd.2.indexInfo.closed) := by
          have h'' := h'
          simp only [oldestScanStep, if_pos hc] at h''
          exact (Option.some.inj h'').symm
        subst hq
        exact ⟨hd.2, by simp, rfl, hc.1⟩
      · left
        rw [← h']
        simp [oldestScanStep, hc]
    · obtain ⟨s, hmem, hcl, hne⟩ := h'
      exact .inr ⟨s, List.mem_cons_of_mem _ hmem, hcl, hne⟩

/-- The scan result is a lower bound on every closed entry's time. -/
theorem oldestScan_min (entries : List (Bytes × SessionEntry)) :
    ∀ (acc : Option (Bytes × Int)) (q : Bytes × Int),
      entries.foldl oldestScanStep acc = some q →
      ∀ p ∈ entries, p.2.indexInfo.closed ≠ -1 → q.2 ≤ p.2.indexInfo.closed := by
  induction entries with
  | nil => intro acc q _ p hp; cases hp
  | cons hd tl ih =>
    intro acc q h p hp hcl
    rcases List.mem_cons.mp hp with hp' | hp'
    · subst hp'
      by_cases hb : beatsOldest acc p.2.indexInfo.closed
      · have hstep : oldestScanStep acc p = some (p.1, p.2.indexInfo.closed) := by
          simp [oldestScanStep, hcl, hb]
        rw [List.foldl_cons, hstep] at h
        obtain ⟨q', hq', hle⟩ := oldestScan_mono tl (p.1, p.2.indexInfo.closed)
        rw [h] at hq'
        cases hq'
        exact hle
      · have hacc : ∃ q0 : Bytes × Int, acc = some q0 ∧ q0.2 ≤ p.2.indexInfo.closed := by
          cases acc with
          | none => simp [beatsOldest] at hb
          | some q0 =>
            refine ⟨q0, rfl, ?_⟩
            simp only [beatsOldest, decide_eq_true_eq] at hb
            omega
        obtain ⟨q0, rfl, hle0⟩ := hacc
        have hstep : oldestScanStep (some q0) p = some q0 := by
          simp [oldestScanStep, hb]
        rw [List.foldl_cons, hstep] at h
        obtain ⟨q', hq', hle⟩ := oldestScan_mono tl q0
        rw [h] at hq'
        cases hq'
        omega
    · exact ih (oldestScanStep acc hd) q h p hp' hcl

/-- A failed scan means no incumbent and no closed entry at all. -/
theorem oldestScan_none (entries : List (Bytes × SessionEntry)) :
    ∀ acc : Option (Bytes × Int),
      entries.foldl oldestScanStep acc = none →
      acc = none ∧ ∀ p ∈ entries, p.2.indexInfo.closed = -1 := by
  induction entries with
  | nil => exact fun acc h => ⟨h, fun p hp => by cases hp⟩
  | cons hd tl ih =>
    intro acc h
    obtain ⟨hstep, htl⟩ := ih (oldestScanStep acc hd) h
    have hhd : hd.2.indexInfo.closed = -1 ∧ acc = none := by
      by_cases hc : hd.2.indexInfo.closed ≠ -1 ∧ beatsOldest acc hd.2.indexInfo.closed
      · simp [oldestScanStep, hc] at hstep
      · cases acc with
        | none =>
          refine ⟨?_, rfl⟩
          by_contra hne
          exact hc ⟨hne, by simp [beatsOldest]⟩
        | some q0 =>
          simp [oldestScanStep, hc] at hstep
    refine ⟨hhd.2, fun p hp => ?_⟩
    rcases List.mem_cons.mp hp with hp' | hp'
    · subst hp'
      exact hhd.1
    · exact htl p hp'

/-- `removeOldLoop` equals erasing the eviction trace, and the removed
count grows by the trace length. -/
theorem removeOldLoop_eq_trace :
    ∀ (fuel : Nat) (entries : List (Bytes × SessionEntry)) (removed : Nat),
      removeOldLoop entries removed fuel =
        ((evictionTrace entries removed fuel).foldl (fun es q => mapErase es q.1) entries,
          removed + (evictionTrace entries removed fuel).length) := by
  intro fuel
  induction fuel with
  | zero => intro entries removed; simp [removeOldLoop, evictionTrace]
  | succ fuel ih =>
    intro entries removed
    by_cases hcond : (entries.length : Int) - removed > CLOSED_SESSIONS_MAX
    · rw [removeOldLoop, evictionTrace, if_pos hcond, if_pos hcond]
      cases hfind : findOldestClosed entries with
      | none => dsimp only; simp
      | some kt =>
        obtain ⟨k, t⟩ := kt
        dsimp only
        rw [ih (mapErase entries k) (removed + 1)]
        simp only [List.foldl_cons, List.length_cons, Prod.mk.injEq]
        exact ⟨by trivial, by omega⟩
    · rw [removeOldLoop, evictionTrace, if_neg hcond, if_neg hcond]
      simp

/-- Every evicted `(key, time)` comes from a closed session of the input. -/
theorem evictionTrace_mem :
    ∀ (fuel : Nat) (entries : List (Bytes × SessionEntry)) (removed : Nat)
      (q : Bytes × Int), q ∈ evictionTrace entries removed fuel →
      ∃ s, (q.1, s) ∈ entries ∧ s.indexInfo.closed = q.2 ∧ q.2 ≠ -1 := by
  intro fuel
  induction fuel with
  | zero => intro entries removed q hq; simp [evictionTrace] at hq
  | succ fuel ih =>
    intro entries removed q hq
    rw [evictionTrace] at hq
    by_cases hcond : (entries.length : Int) - removed > CLOSED_SESSIONS_MAX
    · rw [if_pos hcond] at hq
      cases hfind : findOldestClosed entries with
      | none => rw [hfind] at hq; cases hq
      | some kt =>
        obtain ⟨k, t⟩ := kt
        rw [hfind] at hq
        rcases List.mem_cons.mp hq with hq' | hq'
        · subst hq'
          rcases oldestScan_mem entries none (k, t) hfind with h | h
          · cases h
          · exact h
        · obtain ⟨s, hmem, hcl, hne⟩ := ih (mapErase entries k) (removed + 1) q hq'
          exact ⟨s, (mapErase_sublist entries k).subset hmem, hcl, hne⟩
    · rw [if_neg hcond] at hq
      cases hq

/-- Evictions happen in ascending order of `closed` time. -/
theorem evictionTrace_sorted :
    ∀ (fuel : Nat) (entries : List (Bytes × SessionEntry)) (removed : Nat),
      List.Pairwise (fun a b : Bytes × Int => a.2 ≤ b.2)
        (evictionTrace entries removed fuel) := by
  intro fuel
  induction fuel with
  | zero => intro entries removed; simp [evictionTrace]
  | succ fuel ih =>
    intro entries removed
    rw [evictionTrace]
    by_cases hcond : (entries.length : Int) - removed > CLOSED_SESSIONS_MAX
    · rw [if_pos hcond]
      cases hfind : findOldestClosed entries with
      | none => exact List.Pairwise.nil
      | some kt =>
        obtain ⟨k, t⟩ := kt
        refine List.Pairwise.cons (fun q hq => ?_) (ih _ _)
        obtain ⟨s, hmem, hcl, _⟩ := evictionTrace_mem fuel (mapErase entries k) (removed + 1) q hq
        have hmem' := (mapErase_sublist entries k).subset hmem
        have := oldestScan_min entries none (k, t) hfind (q.1, s) hmem' (by simpa [hcl])
        simpa [hcl] using this
    · rw [if_neg hcond]
      exact List.Pairwise.nil

/-- With enough fuel (any `fuel ≥ entries.length`), the loop only stops
when the while-condition fails or no closed session remains. -/
theorem removeOldLoop_exit :
    ∀ (fuel : Nat) (entries : List (Bytes × SessionEntry)) (removed : Nat),
      entries.length ≤ fuel →
      ((((removeOldLoop entries removed fuel).1.length : Int) -
          (removeOldLoop entries removed fuel).2 ≤ CLOSED_SESSIONS_MAX) ∨
        (∀ p ∈ (removeOldLoop entries removed fuel).1, p.2.indexInfo.closed = -1)) := by
  intro fuel
  induction fuel with
  | zero =>
    intro entries removed hlen
    have : entries = [] := List.length_eq_zero.mp (by omega)
    subst this
    left
    simp [removeOldLoop, CLOSED_SESSIONS_MAX]
    omega
  | succ fuel ih =>
    intro entries removed hlen
    rw [removeOldLoop]
    by_cases hcond : (entries.length : Int) - removed > CLOSED_SESSIONS_MAX
    · rw [if_pos hcond]
      cases hfind : findOldestClosed entries with
      | none =>
        right
        intro p hp
        exact (oldestScan_none entries none hfind).2 p hp
      | some kt =>
        obtain ⟨k, t⟩ := kt
        have hmem : ∃ s, (k, s) ∈ entries := by
          rcases oldestScan_mem entries none (k, t) hfind with h | h
          · cases h
          · obtain ⟨s, hmem, _, _⟩ := h
            exact ⟨s, hmem⟩
        obtain ⟨s, hmem⟩ := hmem
        have hlt : (mapErase entries k).length < entries.length :=
          mapErase_length_lt entries k (mapLookup_isSome_of_mem entries k s hmem)
        exact ih (mapErase entries k) (removed + 1) (by omega)
    · rw [if_neg hcond]
      left
      simpa using le_of_not_lt hcond

/-- **C3 (amended).**  `removeOldSessions()` is a no-op within five
minutes of the previous cleanup; otherwise it deletes only closed
sessions, in ascending order of their `indexInfo.closed` timestamps, and
stops as soon as `entries.length − removedCount ≤ 40` (the scanned array
shrinks as the count grows, so each removal counts twice) or no closed
session remains — the record can therefore keep more than 40 sessions. -/
theorem claim3_removeOldSessions_amended (r : SessionRecord) (now : Int) :
    (now - r.lastCleanup < cleanupInterval → removeOldSessions r now = (r, 0)) ∧
    (cleanupInterval ≤ now - r.lastCleanup →
      (removeOldSessions r now).1.sessions =
        (evictionTrace r.sessions 0 r.sessions.length).foldl
          (fun es q => mapErase es q.1) r.sessions ∧
      (removeOldSessions r now).2 =
        (evictionTrace r.sessions 0 r.sessions.length).length ∧
      (∀ q ∈ evictionTrace r.sessions 0 r.sessions.length,
        ∃ s, (q.1, s) ∈ r.sessions ∧ s.indexInfo.closed = q.2 ∧ q.2 ≠ -1) ∧
      List.Pairwise (fun a b : Bytes × Int => a.2 ≤ b.2)
        (evictionTrace r.sessions 0 r.sessions.length) ∧
      ((((removeOldSessions r now).1.sessions.length : Int) -
          (removeOldSessions r now).2 ≤ 40) ∨
        (∀ p ∈ (removeOldSessions r now).1.sessions, p.2.indexInfo.closed = -1))) := by
  constructor
  · intro h
    rw [removeOldSessions, if_pos h]
  · intro h
    have hloop := removeOldLoop_eq_trace r.sessions.length r.sessions 0
    have hexit := removeOldLoop_exit r.sessions.length r.sessions 0 (le_refl _)
    have hsess : (removeOldSessions r now).1.sessions =
        (removeOldLoop r.sessions 0 r.sessions.length).1 ∧
        (removeOldSessions r now).2 =
        (removeOldLoop r.sessions 0 r.sessions.length).2 := by
      rw [removeOldSessions, if_neg (by omega)]
      by_cases hpos : (removeOldLoop r.sessions 0 r.sessions.length).2 > 0 <;>
        simp [hpos]
    refine ⟨?_, ?_, fun q hq => evictionTrace_mem _ _ _ q hq, evictionTrace_sorted _ _ _, ?_⟩
    · rw [hsess.1, hloop]
    · rw [hsess.2, hloop]
      simp
    · rw [hsess.1, hsess.2]
      simpa [CLOSED_SESSIONS_MAX] using hexit

/-- Counterexample to C3 as stated: 42 closed sessions, cleanup interval
elapsed — `removeOldSessions` leaves 41 sessions, not at most 40 (the
loop's `length − removedCount` double-counts each removal). -/
theorem claim3_counterexample :
    (removeOldSessions rec42 1000000).1.sessions.length = 41 ∧
    ¬((removeOldSessions rec42 1000000).1.sessions.length ≤ 40) := by
  constructor
  · decide
  · decide

/-- Witness for the amended C3: the no-op branch at `now = 100` and the
trace characterisation at `now = 1000000` on the 42-session record. -/
theorem claim3_witness :
    removeOldSessions rec42 100 = (rec42, 0) ∧
    (removeOldSessions rec42 1000000).2 =
      (evictionTrace rec42.sessions 0 rec42.sessions.length).length :=
  ⟨(claim3_removeOldSessions_amended rec42 100).1 (by decide),
   (((claim3_removeOldSessions_amended rec42 1000000).2 (by decide)).2).1⟩

/-! ## `haveOpenSession` (C10) -/

/-- **C10 (amended).**  `haveOpenSession()` returns true iff
`getOpenSession()` returns a session — the *first* session in the record
with `indexInfo.closed = −1` — and that session's `registrationId` is a
number; in particular, a record whose (first) open session lacks a numeric
`registrationId` reports no open session even though `getOpenSession()`
returns that session. -/
theorem claim10_haveOpenSession_amended (r : SessionRecord) :
    (haveOpenSession r = true ↔
      ∃ s, getOpenSession r = some s ∧ s.registrationId.isSome) ∧
    (∀ s, getOpenSession r = some s → s.registrationId = none →
      haveOpenSession r = false) := by
  constructor
  · unfold haveOpenSession
    cases h : getOpenSession r with
    | none => simp
    | some s => simp
  · intro s hs hnone
    unfold haveOpenSession
    rw [hs]
    simp [hnone]

/-- Counterexample to C10 as stated: `recTwoOpen` contains an open session
with a numeric `registrationId` (at key `[1]`), yet `haveOpenSession` is
false because `getOpenSession` returns the earlier open session, which has
none. -/
theorem claim10_counterexample :
    haveOpenSession recTwoOpen = false ∧
    (∃ p ∈ recTwoOpen.sessions,
      p.2.indexInfo.closed = -1 ∧ p.2.registrationId.isSome) ∧
    getOpenSession recTwoOpen = some sessNoReg ∧
    sessNoReg.registrationId = none := by
  refine ⟨by decide, ⟨([1], sessT), by decide, by decide, by decide⟩, by decide, rfl⟩

/-- Witness for the amended C10 on `recTwoOpen`. -/
theorem claim10_witness :
    (haveOpenSession recTwoOpen = true ↔
      ∃ s, getOpenSession recTwoOpen = some s ∧ s.registrationId.isSome) ∧
    haveOpenSession recTwoOpen = false :=
  ⟨(claim10_haveOpenSession_amended recTwoOpen).1,
   (claim10_haveOpenSession_amended recTwoOpen).2 sessNoReg (by decide) rfl⟩

/-! ## Session/chain helper lemmas for `doDecryptWhisperMessage` -/

theorem getChain_setChain_self (s : SessionEntry) (k : Bytes) (c : Chain) :
    getChain (setChain s k c) k = some c :=
  mapLookup_mapInsert_self s.chains k c

theorem fillMessageKeys_noop (hmac : Bytes → Bytes → Bytes) (c : Chain) (t : Int)
    (h : c.chainKey.counter ≥ t) : fillMessageKeys hmac c t = .ok c := by
  rw [fillMessageKeys, fillGo, if_pos h]

theorem mem_mapInsert {κ α : Type} [DecidableEq κ]
    (m : List (κ × α)) (k : κ) (v : α) (p : κ × α)
    (h : p ∈ mapInsert m k v) : p ∈ m ∨ p = (k, v) := by
  induction m with
  | nil => simpa [mapInsert] using h
  | cons hd tl ih =>
    obtain ⟨k', v'⟩ := hd
    by_cases hk : k' = k
    · rcases List.mem_cons.mp (by simpa [mapInsert, hk] using h) with h' | h'
      · exact .inr h'
      · exact .inl (List.mem_cons_of_mem _ h')
    · rcases List.mem_cons.mp (by simpa [mapInsert, hk] using h) with h' | h'
      · exact .inl (by simp [h'])
      · rcases ih h' with h'' | h''
        · exact .inl (List.mem_cons_of_mem _ h'')
        · exact .inr h''

theorem sessionWF_setChain (s : SessionEntry) (k : Bytes) (c : Chain)
    (hs : sessionWF s) (hc : chainWF c) : sessionWF (setChain s k c) := by
  refine ⟨mapInsert_keys_nodup _ _ _ hs.1, fun p hp => ?_⟩
  rcases mem_mapInsert s.chains k c p hp with h | h
  · exact hs.2 p h
  · rw [h]
    exact hc

theorem mapLookup_mem {κ α : Type} [DecidableEq κ]
    (m : List (κ × α)) (k : κ) (v : α) (h : mapLookup m k = some v) : (k, v) ∈ m := by
  induction m with
  | nil => cases h
  | cons hd tl ih =>
    obtain ⟨k', v'⟩ := hd
    by_cases hk : k' = k
    · subst hk
      have hv : v' = v := by simpa [mapLookup] using h
      subst hv
      exact List.mem_cons_self _ _
    · simp only [mapLookup_cons, if_neg hk] at h
      exact List.mem_cons_of_mem _ (ih h)

theorem sessionWF_of_getChain (s : SessionEntry) (k : Bytes) (c : Chain)
    (hs : sessionWF s) (h : getChain s k = some c) : chainWF c :=
  hs.2 (k, c) (mapLookup_mem s.chains k c h)

/-- The errors of `fillGo` (hence of `fillMessageKeys`) are
`SessionError`s. -/
theorem fillGo_err (hmac : Bytes → Bytes → Bytes) (counter : Int) :
    ∀ (fuel : Nat) (chain : Chain) (e : SigErr),
      fillGo hmac counter chain fuel = .error e → ∃ m, e = .sessionError m := by
  intro fuel
  induction fuel with
  | zero =>
    intro chain e hc
    rw [fillGo] at hc
    by_cases h1 : chain.chainKey.counter ≥ counter
    · rw [if_pos h1] at hc
      cases hc
    · rw [if_neg h1] at hc
      by_cases h2 : counter - chain.chainKey.counter > 2000
      · rw [if_pos h2] at hc
        cases hc
        exact ⟨_, rfl⟩
      · rw [if_neg h2] at hc
        cases hk : chain.chainKey.key with
        | none =>
          rw [hk] at hc
          cases hc
          exact ⟨_, rfl⟩
        | some key =>
          rw [hk] at hc
          cases hc
  | succ fuel ih =>
    intro chain e hc
    rw [fillGo] at hc
    by_cases h1 : chain.chainKey.counter ≥ counter
    · rw [if_pos h1] at hc
      cases hc
    · rw [if_neg h1] at hc
      by_cases h2 : counter - chain.chainKey.counter > 2000
      · rw [if_pos h2] at hc
        cases hc
        exact ⟨_, rfl⟩
      · rw [if_neg h2] at hc
        cases hk : chain.chainKey.key with
        | none =>
          rw [hk] at hc
          cases hc
          exact ⟨_, rfl⟩
        | some key =>
          rw [hk] at hc
          dsimp only at hc
          exact ih _ e hc

/-- The errors of `fillMessageKeys` are `SessionError`s. -/
theorem fillMessageKeys_err (hmac : Bytes → Bytes → Bytes) (chain : Chain)
    (counter : Int) :
    ∀ e, fillMessageKeys hmac chain counter = .error e → ∃ m, e = .sessionError m :=
  fun e hc => fillGo_err hmac counter _ chain e hc

/-- The errors of `crypto.js`'s `deriveSecrets`. -/
theorem deriveSecrets_err (hmac : Bytes → Bytes → Bytes) (input salt info : Bytes)
    (chunks : Option Int) (e : SigErr)
    (h : deriveSecrets hmac input salt info chunks = .error e) :
    e = .genericError "Got salt of incorrect length" ∨
      e = .assertionError "chunks >= 1 && chunks <= 3" := by
  simp only [deriveSecrets] at h
  by_cases hs : salt.length ≠ 32
  · rw [if_pos hs] at h
    cases h
    exact .inl rfl
  · rw [if_neg hs] at h
    by_cases hc : ¬(jsOrThree chunks ≥ 1 ∧ jsOrThree chunks ≤ 3)
    · rw [if_pos hc] at h
      cases h
      exact .inr rfl
    · rw [if_neg hc] at h
      by_cases h1 : jsOrThree chunks > 1
      · rw [if_pos h1] at h
        by_cases h2 : jsOrThree chunks > 2
        · rw [if_pos h2] at h
          cases h
        · rw [if_neg h2] at h
          cases h
      · rw [if_neg h1] at h
        cases h

/-- The errors of `calculateRatchet` are HKDF errors or the `addChain`
overwrite error. -/
theorem calculateRatchet_err (env : CipherEnv) (s : SessionEntry)
    (remoteKey : Bytes) (sending : Bool) (e : SigErr)
    (h : calculateRatchet env s remoteKey sending = .error e) :
    e = .genericError "Got salt of incorrect length" ∨
      e = .assertionError "chunks >= 1 && chunks <= 3" ∨
      e = .genericError "Overwrite attempt" := by
  simp only [calculateRatchet] at h
  cases hd : deriveSecrets env.hmac
      (env.curveAgree remoteKey s.currentRatchet.ephemeralKeyPair.privKey)
      s.currentRatchet.rootKey (strBytes "WhisperRatchet") (some 2) with
  | error e' =>
    rw [hd] at h
    simp only at h
    cases h
    rcases deriveSecrets_err _ _ _ _ _ _ hd with h' | h'
    · exact .inl h'
    · exact .inr (.inl h')
  | ok masterKey =>
    rw [hd] at h
    simp only [addChain] at h
    by_cases hk : (mapLookup s.chains
        (if sending then s.currentRatchet.ephemeralKeyPair.pubKey else remoteKey)).isSome
    · rw [if_pos hk] at h
      simp only at h
      cases h
      exact .inr (.inr rfl)
    · rw [if_neg hk] at h
      simp only at h
      cases h

/-- The error thrown by a failed `maybeStepRatchetRest` is never the MAC
verification failure. -/
theorem maybeStepRatchetRest_err (env : CipherEnv) (s1 : SessionEntry)
    (remoteKey : Bytes) (e : SigErr) (s' : SessionEntry)
    (h : maybeStepRatchetRest env s1 remoteKey = (.error e, s')) :
    e ≠ .genericError "Falha na verificação do MAC" := by
  unfold maybeStepRatchetRest at h
  cases h1 : calculateRatchet env s1 remoteKey false with
  | error e1 =>
    rw [h1] at h
    simp only [Prod.mk.injEq] at h
    cases h.1
    rcases calculateRatchet_err _ _ _ _ _ h1 with h' | h' | h' <;> simp [h']
  | ok s2 =>
    rw [h1] at h
    simp only at h
    cases h2 : getChain s2 s2.currentRatchet.ephemeralKeyPair.pubKey with
    | some pc =>
      rw [h2] at h
      simp only at h
      set s3 := { s2 with currentRatchet :=
        { s2.currentRatchet with previousCounter := pc.chainKey.counter } } with hs3
      cases h3 : deleteChain s3 s3.currentRatchet.ephemeralKeyPair.pubKey with
      | error e3 =>
        rw [h3] at h
        simp only [Prod.mk.injEq] at h
        cases h.1
        unfold deleteChain at h3
        by_cases hk : (mapLookup s3.chains s3.currentRatchet.ephemeralKeyPair.pubKey).isSome
        · rw [if_pos hk] at h3
          cases h3
        · rw [if_neg hk] at h3
          cases h3
          simp
      | ok s3' =>
        rw [h3] at h
        simp only at h
        cases h4 : calculateRatchet env
            { s3' with currentRatchet :=
              { s3'.currentRatchet with ephemeralKeyPair := env.freshKp } }
            remoteKey true with
        | error e4 =>
          rw [h4] at h
          simp only [Prod.mk.injEq] at h
          cases h.1
          rcases calculateRatchet_err _ _ _ _ _ h4 with h' | h' | h' <;> simp [h']
        | ok s5 =>
          rw [h4] at h
          simp only [Prod.mk.injEq] at h
          cases h.1
    | none =>
      rw [h2] at h
      simp only at h
      cases h4 : calculateRatchet env
          { s2 with currentRatchet :=
            { s2.currentRatchet with ephemeralKeyPair := env.freshKp } }
          remoteKey true with
      | error e4 =>
        rw [h4] at h
        simp only [Prod.mk.injEq] at h
        cases h.1
        rcases calculateRatchet_err _ _ _ _ _ h4 with h' | h' | h' <;> simp [h']
      | ok s5 =>
        rw [h4] at h
        simp only [Prod.mk.injEq] at h
        cases h.1

/-- The error thrown by a failed `maybeStepRatchet` is never the MAC
verification failure. -/
theorem maybeStepRatchet_err (env : CipherEnv) (s : SessionEntry)
    (remoteKey : Bytes) (previousCounter : Int) (e : SigErr) (s' : SessionEntry)
    (h : maybeStepRatchet env s remoteKey previousCounter = (.error e, s')) :
    e ≠ .genericError "Falha na verificação do MAC" := by
  unfold maybeStepRatchet at h
  by_cases hc : (getChain s remoteKey).isSome
  · rw [if_pos hc] at h
    simp only [Prod.mk.injEq] at h
    cases h.1
  · rw [if_neg hc] at h
    cases h2 : getChain s s.currentRatchet.lastRemoteEphemeralKey with
    | some prev =>
      rw [h2] at h
      simp only at h
      cases h3 : fillMessageKeys env.hmac prev previousCounter with
      | error e3 =>
        rw [h3] at h
        simp only [Prod.mk.injEq] at h
        cases h.1
        obtain ⟨m, hm⟩ := fillMessageKeys_err env.hmac prev previousCounter _ h3
        simp [hm]
      | ok pr' =>
        rw [h3] at h
        simp only at h
        exact maybeStepRatchetRest_err env _ remoteKey e s' h
    | none =>
      rw [h2] at h
      simp only at h
      exact maybeStepRatchetRest_err env s remoteKey e s' h

/-! ## Well-formedness is preserved by the ratchet operations -/

theorem sessionWF_deleteChain (s : SessionEntry) (k : Bytes) (s' : SessionEntry)
    (h : deleteChain s k = .ok s') (hs : sessionWF s) : sessionWF s' := by
  unfold deleteChain at h
  by_cases hk : (mapLookup s.chains k).isSome
  · rw [if_pos hk] at h
    cases h
    refine ⟨hs.1.sublist ((mapErase_sublist s.chains k).map Prod.fst), fun p hp => ?_⟩
    exact hs.2 p ((mapErase_sublist s.chains k).subset hp)
  · rw [if_neg hk] at h
    cases h

theorem calculateRatchet_wf (env : CipherEnv) (s : SessionEntry)
    (remoteKey : Bytes) (sending : Bool) (s' : SessionEntry)
    (h : calculateRatchet env s remoteKey sending = .ok s') (hs : sessionWF s) :
    sessionWF s' := by
  simp only [calculateRatchet] at h
  cases hd : deriveSecrets env.hmac
      (env.curveAgree remoteKey s.currentRatchet.ephemeralKeyPair.privKey)
      s.currentRatchet.rootKey (strBytes "WhisperRatchet") (some 2) with
  | error e' =>
    rw [hd] at h
    simp only at h
    cases h
  | ok masterKey =>
    rw [hd] at h
    simp only [addChain] at h
    by_cases hk : (mapLookup s.chains
        (if sending then s.currentRatchet.ephemeralKeyPair.pubKey else remoteKey)).isSome
    · rw [if_pos hk] at h
      simp only at h
      cases h
    · rw [if_neg hk] at h
      simp only at h
      cases h
      refine ⟨mapInsert_keys_nodup _ _ _ hs.1, fun p hp => ?_⟩
      rcases mem_mapInsert _ _ _ p hp with h' | h'
      · exact hs.2 p h'
      · rw [h']
        simp [chainWF]

theorem maybeStepRatchetRest_wf (env : CipherEnv) (s1 : SessionEntry)
    (remoteKey : Bytes) (hs : sessionWF s1) :
    sessionWF (maybeStepRatchetRest env s1 remoteKey).2 := by
  unfold maybeStepRatchetRest
  split
  · exact hs
  · rename_i s2 heq
    have hs2 : sessionWF s2 := calculateRatchet_wf env s1 remoteKey false s2 heq hs
    split
    · rename_i pc hpc
      dsimp only
      split
      · exact hs2
      · rename_i s3' hdel
        have hs3' : sessionWF s3' := sessionWF_deleteChain _ _ _ hdel hs2
        split
        · exact hs3'
        · rename_i s5 hcalc
          exact calculateRatchet_wf env _ remoteKey true s5 hcalc hs3'
    · rename_i hpc
      dsimp only
      split
      · exact hs2
      · rename_i s5 hcalc
        exact calculateRatchet_wf env _ remoteKey true s5 hcalc hs2

theorem maybeStepRatchet_wf (env : CipherEnv) (s : SessionEntry)
    (remoteKey : Bytes) (previousCounter : Int) (hs : sessionWF s) :
    sessionWF (maybeStepRatchet env s remoteKey previousCounter).2 := by
  unfold maybeStepRatchet
  by_cases hc : (getChain s remoteKey).isSome
  · rw [if_pos hc]
    exact hs
  · rw [if_neg hc]
    split
    · rename_i prev h2
      split
      · exact hs
      · rename_i pr' h3
        have hprWF : chainWF pr' :=
          (fillMessageKeys_ok_spec env.hmac prev previousCounter pr' h3).2.2
            (sessionWF_of_getChain s _ prev hs h2)
        exact maybeStepRatchetRest_wf env _ remoteKey
          (sessionWF_setChain s _ _ hs hprWF)
    · exact maybeStepRatchetRest_wf env s remoteKey hs

/-- `maybeStepRatchet` is a no-op when a chain for the remote key already
exists. -/
theorem maybeStepRatchet_noop (env : CipherEnv) (s : SessionEntry)
    (remoteKey : Bytes) (previousCounter : Int)
    (h : (getChain s remoteKey).isSome) :
    maybeStepRatchet env s remoteKey previousCounter = (.ok (), s) := by
  unfold maybeStepRatchet
  rw [if_pos h]

/-- Replay behaviour of `doDecryptWhisperMessage`: when the chain for the
frame's ephemeral key already exists, is a receiving chain, has advanced
past the frame's counter, and holds no message key at that counter, the
call fails with `MessageCounterError`. -/
theorem doDecrypt_replay (env : CipherEnv) (data : Bytes) (s : SessionEntry)
    (msg : WhisperMsg) (c : Chain)
    (hver : ¬((decodeTupleByte (data.headD 0)).2 > 3 ∨ (decodeTupleByte (data.headD 0)).1 < 3))
    (hdec : env.decodeWhisper ((data.drop 1).take (data.length - 9)) = .ok msg)
    (hchain : getChain s msg.ephemeralKey = some c)
    (htype : ¬c.chainType = ChainType.sending)
    (hcnt : c.chainKey.counter ≥ msg.counter)
    (hlook : mapLookup c.messageKeys msg.counter = none) :
    doDecryptWhisperMessage env data s =
      (.error (.messageCounterError "Key used already or never filled"),
        setChain s msg.ephemeralKey c) := by
  unfold doDecryptWhisperMessage
  rw [if_neg hver]
  dsimp only
  rw [hdec]
  dsimp only
  rw [maybeStepRatchet_noop env s msg.ephemeralKey msg.previousCounter (by rw [hchain]; rfl)]
  dsimp only
  rw [hchain]
  dsimp only
  rw [if_neg htype, fillMessageKeys_noop env.hmac c msg.counter hcnt]
  dsimp only
  rw [hlook]

/-- After any `doDecryptWhisperMessage` run that got past taking the
message key — a success, or in particular the MAC-verification failure —
the (mutated) session's chain for the frame's ephemeral key is a
non-sending chain advanced at least to the frame's counter whose
message-key map no longer holds that counter. -/
theorem doDecrypt_post_take (env : CipherEnv) (data : Bytes) (s : SessionEntry)
    (res : Except SigErr Bytes) (s' : SessionEntry) (msg : WhisperMsg)
    (hwf : sessionWF s)
    (h : doDecryptWhisperMessage env data s = (res, s'))
    (hdec : env.decodeWhisper ((data.drop 1).take (data.length - 9)) = .ok msg)
    (hres : (∃ pt, res = .ok pt) ∨
      res = .error (.genericError "Falha na verificação do MAC")) :
    ¬((decodeTupleByte (data.headD 0)).2 > 3 ∨ (decodeTupleByte (data.headD 0)).1 < 3) ∧
    ∃ cE : Chain, getChain s' msg.ephemeralKey = some cE ∧
      ¬cE.chainType = ChainType.sending ∧
      cE.chainKey.counter ≥ msg.counter ∧
      mapLookup cE.messageKeys msg.counter = none := by
  unfold doDecryptWhisperMessage at h
  by_cases hver : ((decodeTupleByte (data.headD 0)).2 > 3 ∨ (decodeTupleByte (data.headD 0)).1 < 3)
  · rw [if_pos hver] at h
    simp only [Prod.mk.injEq] at h
    rcases hres with ⟨pt, hpt⟩ | hmf
    · rw [hpt] at h
      cases h.1
    · rw [hmf] at h
      have := h.1
      simp at this
  · rw [if_neg hver] at h
    dsimp only at h
    rw [hdec] at h
    dsimp only at h
    refine ⟨hver, ?_⟩
    rcases hmsr : maybeStepRatchet env s msg.ephemeralKey msg.previousCounter with ⟨r1, s1⟩
    rw [hmsr] at h
    have hwf1 : sessionWF s1 := by
      have hw := maybeStepRatchet_wf env s msg.ephemeralKey msg.previousCounter hwf
      rw [hmsr] at hw
      exact hw
    cases r1 with
    | error e1 =>
      dsimp only at h
      simp only [Prod.mk.injEq] at h
      have hne := maybeStepRatchet_err env s msg.ephemeralKey msg.previousCounter e1 s1 hmsr
      rcases hres with ⟨pt, hpt⟩ | hmf
      · rw [hpt] at h
        cases h.1
      · rw [hmf] at h
        exact absurd (Except.error.inj h.1) (fun he => hne (by rw [he]))
    | ok u =>
      dsimp only at h
      cases hgc : getChain s1 msg.ephemeralKey with
      | none =>
        rw [hgc] at h
        dsimp only at h
        simp only [Prod.mk.injEq] at h
        rcases hres with ⟨pt, hpt⟩ | hmf
        · rw [hpt] at h
          cases h.1
        · rw [hmf] at h
          have := h.1
          simp at this
      | some chain =>
        rw [hgc] at h
        dsimp only at h
        by_cases hty : chain.chainType = ChainType.sending
        · rw [if_pos hty] at h
          simp only [Prod.mk.injEq] at h
          rcases hres with ⟨pt, hpt⟩ | hmf
          · rw [hpt] at h
            cases h.1
          · rw [hmf] at h
            have := h.1
            simp at this
        · rw [if_neg hty] at h
          cases hfill : fillMessageKeys env.hmac chain msg.counter with
          | error e =>
            rw [hfill] at h
            dsimp only at h
            simp only [Prod.mk.injEq] at h
            obtain ⟨m, hm⟩ := fillMessageKeys_err env.hmac chain msg.counter e hfill
            rcases hres with ⟨pt, hpt⟩ | hmf
            · rw [hpt] at h
              cases h.1
            · rw [hmf] at h
              have := h.1
              rw [hm] at this
              simp at this
          | ok chainF =>
            rw [hfill] at h
            dsimp only at h
            obtain ⟨htyF, hcntF, hwfF⟩ :=
              fillMessageKeys_ok_spec env.hmac chain msg.counter chainF hfill
            have hcwF : chainWF chainF :=
              hwfF (sessionWF_of_getChain s1 msg.ephemeralKey chain hwf1 hgc)
            have hgeF : chainF.chainKey.counter ≥ msg.counter := by
              rw [hcntF]
              exact le_max_right _ _
            cases hlk : mapLookup chainF.messageKeys msg.counter with
            | none =>
              rw [hlk] at h
              dsimp only at h
              simp only [Prod.mk.injEq] at h
              rcases hres with ⟨pt, hpt⟩ | hmf
              · rw [hpt] at h
                cases h.1
              · rw [hmf] at h
                have := h.1
                simp at this
            | some mkey =>
              rw [hlk] at h
              dsimp only at h
              have hlkE : mapLookup
                  (mapErase chainF.messageKeys msg.counter) msg.counter = none :=
                mapLookup_mapErase_self chainF.messageKeys hcwF msg.counter
              split at h <;>
                [skip;
                 (rw [show encodeTupleByte 3 3 = .ok 51 from rfl] at h; dsimp only at h;
                  split at h <;> [skip; split at h <;> [skip; skip]])] <;>
                simp only [Prod.mk.injEq] at h <;>
                refine h.2 ▸ ⟨{ chainF with
                    messageKeys := mapErase chainF.messageKeys msg.counter },
                  getChain_setChain_self _ _ _, htyF ▸ hty, hgeF, hlkE⟩

/-- **C7.**  After a successful `doDecryptWhisperMessage` of a frame
carrying counter `k` ( = `msg.counter`) on a receiving chain, the
`messageKeys` entry at `k` is absent from that chain, and a second
`doDecryptWhisperMessage` call on the same frame with the same (mutated)
session fails with `MessageCounterError`. -/
theorem claim7_decrypt_consumes_key (env : CipherEnv) (data : Bytes)
    (s : SessionEntry) (msg : WhisperMsg) (pt : Bytes) (s' : SessionEntry)
    (hwf : sessionWF s)
    (hdec : env.decodeWhisper ((data.drop 1).take (data.length - 9)) = .ok msg)
    (h : doDecryptWhisperMessage env data s = (.ok pt, s')) :
    ∃ cE : Chain, getChain s' msg.ephemeralKey = some cE ∧
      mapLookup cE.messageKeys msg.counter = none ∧
      (doDecryptWhisperMessage env data s').1 =
        .error (.messageCounterError "Key used already or never filled") := by
  obtain ⟨hver, cE, hgc, hty, hge, hlk⟩ :=
    doDecrypt_post_take env data s (.ok pt) s' msg hwf h hdec (.inl ⟨pt, rfl⟩)
  refine ⟨cE, hgc, hlk, ?_⟩
  rw [doDecrypt_replay env data s' msg cE hver hdec hgc hty hge hlk]

/-- Witness for C7: decrypting `frameGood` against `sessT` succeeds with
plaintext `[42]`; afterwards the message key at counter 0 is gone and the
replay fails with `MessageCounterError`. -/
theorem claim7_witness :
    ∃ cE : Chain,
      getChain (doDecryptWhisperMessage envT frameGood sessT).2 [9] = some cE ∧
      mapLookup cE.messageKeys 0 = none ∧
      (doDecryptWhisperMessage envT frameGood
        (doDecryptWhisperMessage envT frameGood sessT).2).1 =
        .error (.messageCounterError "Key used already or never filled") :=
  claim7_decrypt_consumes_key envT frameGood sessT
    { ephemeralKey := [9], counter := 0, previousCounter := 0, ciphertext := [42] }
    [42] (doDecryptWhisperMessage envT frameGood sessT).2 (by decide) rfl
    (by
      have h1 : (doDecryptWhisperMessage envT frameGood sessT).1 = .ok [42] := by decide
      calc doDecryptWhisperMessage envT frameGood sessT
          = ((doDecryptWhisperMessage envT frameGood sessT).1,
             (doDecryptWhisperMessage envT frameGood sessT).2) := rfl
        _ = (.ok [42], (doDecryptWhisperMessage envT frameGood sessT).2) := by rw [h1])

/-- **C1 (amended).**  When `doDecryptWhisperMessage` fails because the
truncated MAC does not match, the message key at the frame's counter has
*already been deleted* from the chain's `messageKeys` map (the source
deletes it before calling `verifyMAC`), so a second
`doDecryptWhisperMessage` call on the same session fails with
`MessageCounterError` instead of succeeding. -/
theorem claim1_macfail_consumes_key (env : CipherEnv) (data : Bytes)
    (s : SessionEntry) (msg : WhisperMsg) (s' : SessionEntry)
    (hwf : sessionWF s)
    (hdec : env.decodeWhisper ((data.drop 1).take (data.length - 9)) = .ok msg)
    (h : doDecryptWhisperMessage env data s =
      (.error (.genericError "Falha na verificação do MAC"), s')) :
    ∃ cE : Chain, getChain s' msg.ephemeralKey = some cE ∧
      mapLookup cE.messageKeys msg.counter = none ∧
      (doDecryptWhisperMessage env data s').1 =
        .error (.messageCounterError "Key used already or never filled") := by
  obtain ⟨hver, cE, hgc, hty, hge, hlk⟩ :=
    doDecrypt_post_take env data s
      (.error (.genericError "Falha na verificação do MAC")) s' msg hwf h hdec
      (.inr rfl)
  refine ⟨cE, hgc, hlk, ?_⟩
  rw [doDecrypt_replay env data s' msg cE hver hdec hgc hty hge hlk]

/-- Counterexample to C1 as stated: after the MAC-failing delivery of
`frameBad`, the message key at counter 0 is *not* still cached, and
redelivering the unmodified good frame with the same session fails with
`MessageCounterError` rather than succeeding — although the same good
frame decrypts fine against the untouched session. -/
theorem claim1_counterexample :
    (doDecryptWhisperMessage envT frameBad sessT).1 =
      .error (.genericError "Falha na verificação do MAC") ∧
    ((getChain (doDecryptWhisperMessage envT frameBad sessT).2 [9]).map
      (fun c => mapLookup c.messageKeys 0)) = some none ∧
    (doDecryptWhisperMessage envT frameGood
      (doDecryptWhisperMessage envT frameBad sessT).2).1 =
      .error (.messageCounterError "Key used already or never filled") ∧
    (doDecryptWhisperMessage envT frameGood sessT).1 = .ok [42] := by
  refine ⟨by decide, by decide, by decide, by decide⟩

/-! ## Buffer layout of `encrypt`'s MAC input and inner frame (C5) -/

/-- `bufSet` at an offset equal to the length of a known prefix, stated in
right-nested form. -/
theorem bufSet_at (x y c src : Bytes) (off : Nat) (hoff : off = x.length)
    (hy : y.length = src.length) :
    bufSet (x ++ (y ++ c)) off src = x ++ (src ++ c) := by
  subst hoff
  simpa [List.append_assoc] using bufSet_mid x y c src hy

/-- The `encrypt` MAC input — identity keys at offsets 0 and 33, version
byte at 66, encoded message at 67 — is plain concatenation for 33-byte
identity keys. -/
theorem macInput_eq (a b m : Bytes) (v : Nat) (ha : a.length = 33) (hb : b.length = 33) :
    bufSet (bufSetByte (bufSet (bufSet (bufAlloc (m.length + 33 * 2 + 1)) 0 a) 33 b)
      (33 * 2) v) (33 * 2 + 1) m = a ++ b ++ v :: m := by
  have e0 : (bufAlloc (m.length + 33 * 2 + 1) : Bytes) =
      [] ++ (List.replicate 33 0 ++
        (List.replicate 33 0 ++ ([0] ++ List.replicate m.length 0))) := by
    simp only [bufAlloc, List.nil_append]
    have h : m.length + 33 * 2 + 1 = 33 + (33 + (1 + m.length)) := by ring
    rw [h, List.replicate_add, List.replicate_add, List.replicate_add]
    simp
  rw [e0, bufSet_at [] (List.replicate 33 0) _ a 0 rfl (by simp [ha])]
  rw [List.nil_append,
    bufSet_at a (List.replicate 33 0) _ b 33 ha.symm (by simp [hb])]
  rw [bufSetByte_eq_bufSet, show (a ++ (b ++ ([0] ++ List.replicate m.length 0))) =
    (a ++ b) ++ ([0] ++ List.replicate m.length 0) by simp [List.append_assoc]]
  rw [bufSet_at (a ++ b) [0] _ [v] (33 * 2) (by simp [ha, hb]) rfl]
  rw [show ((a ++ b) ++ ([v] ++ List.replicate m.length 0)) =
    ((a ++ b) ++ [v]) ++ (List.replicate m.length 0 ++ []) by simp [List.append_assoc]]
  rw [bufSet_at ((a ++ b) ++ [v]) (List.replicate m.length 0) [] m (33 * 2 + 1)
    (by simp [ha, hb]) (by simp)]
  simp [List.append_assoc]

/-- The inner frame buffer — version byte, encoded message, truncated MAC —
is plain concatenation when the truncated MAC has 8 bytes. -/
theorem resultFrame_eq (m t : Bytes) (v : Nat) (ht : t.length = 8) :
    bufSet (bufSet (bufSetByte (bufAlloc (m.length + 9)) 0 v) 1 m) (m.length + 1) t =
      v :: (m ++ t) := by
  have e0 : (bufAlloc (m.length + 9) : Bytes) =
      [] ++ ([0] ++ (List.replicate m.length 0 ++ List.replicate 8 0)) := by
    simp only [bufAlloc, List.nil_append]
    have h : m.length + 9 = 1 + (m.length + 8) := by ring
    rw [h, List.replicate_add, List.replicate_add]
    simp
  rw [e0, bufSetByte_eq_bufSet, bufSet_at [] [0] _ [v] 0 rfl rfl]
  rw [List.nil_append,
    bufSet_at [v] (List.replicate m.length 0) _ m 1 (by simp) (by simp)]
  rw [show ([v] ++ (m ++ List.replicate 8 0)) =
    ([v] ++ m) ++ (List.replicate 8 0 ++ []) by simp [List.append_assoc]]
  rw [bufSet_at ([v] ++ m) (List.replicate 8 0) [] t (m.length + 1) (by simp [Nat.add_comm]) (by simp [ht])]
  simp

/-- Anatomy of a successful `encryptCore` run: the open session, its
sending chain, the one-step `fillMessageKeys`, the HKDF-derived keys, the
built `WhisperMessage`, the inner frame, the caller-visible output, and
the stored record. -/
theorem encryptCore_ok_extract (env : CipherEnv) (now : Int) (record : SessionRecord)
    (data : Bytes) (msg : WhisperMsg) (frame : Bytes) (out : EncryptResult)
    (rec' : Option SessionRecord)
    (h : encryptCore env now (some record) data = (.ok (msg, frame, out), rec')) :
    ∃ (skey : Bytes) (sess : SessionEntry) (chain chainF : Chain)
      (seed : Bytes) (keys : List Bytes),
      getOpenSessionK record = some (skey, sess) ∧
      env.isTrusted sess.indexInfo.remoteIdentityKey = true ∧
      getChain sess sess.currentRatchet.ephemeralKeyPair.pubKey = some chain ∧
      ¬chain.chainType = ChainType.receiving ∧
      fillMessageKeys env.hmac chain (chain.chainKey.counter + 1) = .ok chainF ∧
      mapLookup chainF.messageKeys chainF.chainKey.counter = some seed ∧
      engineDeriveSecrets env.hmac seed (bufAlloc 32)
        (strBytes "WhisperMessageKeys") none = .ok keys ∧
      msg = { ephemeralKey := sess.currentRatchet.ephemeralKeyPair.pubKey,
              counter := chainF.chainKey.counter,
              previousCounter := sess.currentRatchet.previousCounter,
              ciphertext := env.aesEnc (keys.getD 0 []) data ((keys.getD 2 []).take 16) } ∧
      frame =
        bufSet (bufSet (bufSetByte (bufAlloc ((env.encodeWhisper msg).length + 9)) 0 51)
            1 (env.encodeWhisper msg)) ((env.encodeWhisper msg).length + 1)
          ((calculateMAC env.hmac (keys.getD 1 [])
            (bufSet (bufSetByte (bufSet (bufSet
              (bufAlloc ((env.encodeWhisper msg).length + 33 * 2 + 1)) 0
                env.ourIdentityKey.pubKey) 33 sess.indexInfo.remoteIdentityKey)
              (33 * 2) 51) (33 * 2 + 1) (env.encodeWhisper msg))).take 8) ∧
      ((out.type = 1 ∧ out.body = frame) ∨
        (out.type = 3 ∧ ∃ pkmsg : PreKeyWhisperMsg,
          out.body = 51 :: env.encodePreKey pkmsg ∧ pkmsg.message = frame)) ∧
      rec' = some (storeRecord (recordSet
        (recordSet record skey
          (setChain sess sess.currentRatchet.ephemeralKeyPair.pubKey chainF))
        skey
        (setChain (setChain sess sess.currentRatchet.ephemeralKeyPair.pubKey chainF)
          sess.currentRatchet.ephemeralKeyPair.pubKey
          { chainF with
            messageKeys := mapErase chainF.messageKeys chainF.chainKey.counter }))
        now) := by
  unfold encryptCore at h
  dsimp only at h
  cases hopen : getOpenSessionK record with
  | none =>
    rw [hopen] at h
    simp only [Prod.mk.injEq] at h
    cases h.1
  | some ks =>
    obtain ⟨skey, sess⟩ := ks
    rw [hopen] at h
    dsimp only at h
    by_cases htr : env.isTrusted sess.indexInfo.remoteIdentityKey
    · rw [if_neg (by simp [htr])] at h
      cases hgc : getChain sess sess.currentRatchet.ephemeralKeyPair.pubKey with
      | none =>
        rw [hgc] at h
        simp only [Prod.mk.injEq] at h
        cases h.1
      | some chain =>
        rw [hgc] at h
        dsimp only at h
        by_cases hty : chain.chainType = ChainType.receiving
        · rw [if_pos hty] at h
          simp only [Prod.mk.injEq] at h
          cases h.1
        · rw [if_neg hty] at h
          cases hfill : fillMessageKeys env.hmac chain (chain.chainKey.counter + 1) with
          | error e =>
            rw [hfill] at h
            simp only [Prod.mk.injEq] at h
            cases h.1
          | ok chainF =>
            rw [hfill] at h
            dsimp only at h
            cases hlk : mapLookup chainF.messageKeys chainF.chainKey.counter with
            | none =>
              rw [hlk] at h
              simp only [Prod.mk.injEq] at h
              cases h.1
            | some seed =>
              rw [hlk] at h
              dsimp only at h
              cases hds : engineDeriveSecrets env.hmac seed (bufAlloc 32)
                  (strBytes "WhisperMessageKeys") none with
              | error e =>
                rw [hds] at h
                simp only [Prod.mk.injEq] at h
                cases h.1
              | ok keys =>
                rw [hds] at h
                dsimp only at h
                rw [show encodeTupleByte 3 3 = .ok 51 from rfl] at h
                dsimp only at h
                simp only [setChain] at h
                cases hppk : sess.pendingPreKey with
                | some ppk =>
                  rw [hppk] at h
                  simp only [Prod.mk.injEq, EncryptResult.mk.injEq,
                    Except.ok.injEq] at h
                  obtain ⟨⟨hmsg, hframe, hout⟩, hrec⟩ := h
                  subst hout
                  refine ⟨skey, sess, chain, chainF, seed, keys, rfl, by simp [htr],
                    hgc, hty, hfill, hlk, hds, hmsg.symm, ?_, ?_, ?_⟩
                  · rw [← hframe, ← hmsg]
                  · right
                    exact ⟨rfl, _, rfl, hframe⟩
                  · simp only [setChain]
                    rw [hppk]
                    exact hrec.symm
                | none =>
                  rw [hppk] at h
                  simp only [Prod.mk.injEq, EncryptResult.mk.injEq,
                    Except.ok.injEq] at h
                  obtain ⟨⟨hmsg, hframe, hout⟩, hrec⟩ := h
                  subst hout
                  refine ⟨skey, sess, chain, chainF, seed, keys, rfl, by simp [htr],
                    hgc, hty, hfill, hlk, hds, hmsg.symm, ?_, ?_, ?_⟩
                  · rw [← hframe, ← hmsg]
                  · left
                    exact ⟨rfl, hframe⟩
                  · simp only [setChain]
                    rw [hppk]
                    exact hrec.symm
    · rw [if_pos (by simp [htr])] at h
      simp only [Prod.mk.injEq] at h
      cases h.1

/-- Witness for the amended C1 at the concrete MAC-failing run. -/
theorem claim1_witness :
    ∃ cE : Chain,
      getChain (doDecryptWhisperMessage envT frameBad sessT).2 [9] = some cE ∧
      mapLookup cE.messageKeys 0 = none ∧
      (doDecryptWhisperMessage envT frameBad
        (doDecryptWhisperMessage envT frameBad sessT).2).1 =
        .error (.messageCounterError "Key used already or never filled") :=
  claim1_macfail_consumes_key envT frameBad sessT
    { ephemeralKey := [9], counter := 0, previousCounter := 0, ciphertext := [42] }
    (doDecryptWhisperMessage envT frameBad sessT).2 (by decide) rfl
    (by
      have h1 : (doDecryptWhisperMessage envT frameBad sessT).1 =
          .error (.genericError "Falha na verificação do MAC") := by decide
      calc doDecryptWhisperMessage envT frameBad sessT
          = ((doDecryptWhisperMessage envT frameBad sessT).1,
             (doDecryptWhisperMessage envT frameBad sessT).2) := rfl
        _ = (.error (.genericError "Falha na verificação do MAC"),
             (doDecryptWhisperMessage envT frameBad sessT).2) := by rw [h1])

/-- The toy HMAC always produces 32 bytes, like HMAC-SHA256. -/
theorem hmacT_length (k m : Bytes) : (hmacT k m).length = 32 := by
  simp [hmacT]

/-- **C5.**  For every successful `encrypt` call (33-byte identity keys,
32-byte HMAC), the inner frame — the `body` for type 1, the embedded
`message` field of the `PreKeyWhisperMessage` for type 3 — is exactly the
version byte `(3 <<< 4) ||| 3 = 0x33 = 51`, then the encoded
`WhisperMessage`, then the first 8 bytes of
`HMAC(macKey, ourIdentityPub ‖ theirIdentityPub ‖ versionByte ‖ encoded)`,
where `theirIdentityPub` is the open session's remote identity key. -/
theorem claim5_inner_frame (env : CipherEnv) (now : Int) (record : SessionRecord)
    (data : Bytes) (msg : WhisperMsg) (frame : Bytes) (out : EncryptResult)
    (rec' : Option SessionRecord)
    (hhm : ∀ k m, (env.hmac k m).length = 32)
    (hour : env.ourIdentityKey.pubKey.length = 33)
    (hrem : ∀ p ∈ record.sessions,
      (Prod.snd p).indexInfo.remoteIdentityKey.length = 33)
    (h : encryptCore env now (some record) data = (.ok (msg, frame, out), rec')) :
    ∃ (skey : Bytes) (sess : SessionEntry) (macKey : Bytes),
      getOpenSessionK record = some (skey, sess) ∧
      frame = 51 :: (env.encodeWhisper msg ++
        (calculateMAC env.hmac macKey
          (env.ourIdentityKey.pubKey ++ sess.indexInfo.remoteIdentityKey ++
            51 :: env.encodeWhisper msg)).take 8) ∧
      ((out.type = 1 ∧ out.body = frame) ∨
        (out.type = 3 ∧ ∃ pkmsg : PreKeyWhisperMsg,
          out.body = 51 :: env.encodePreKey pkmsg ∧ pkmsg.message = frame)) := by
  obtain ⟨skey, sess, chain, chainF, seed, keys, hopen, htr, hgc, hty, hfill, hlk,
    hds, hmsg, hframe, hout, hrec⟩ :=
    encryptCore_ok_extract env now record data msg frame out rec' h
  have hmem : (skey, sess) ∈ record.sessions := List.mem_of_find?_eq_some hopen
  have hb : sess.indexInfo.remoteIdentityKey.length = 33 := hrem _ hmem
  refine ⟨skey, sess, keys.getD 1 [], hopen, ?_, hout⟩
  rw [hframe, macInput_eq env.ourIdentityKey.pubKey sess.indexInfo.remoteIdentityKey
    (env.encodeWhisper msg) 51 hour hb,
    resultFrame_eq (env.encodeWhisper msg) _ 51 (by simp [calculateMAC, hhm])]

/-- Witness for C5 at a concrete successful `encrypt` run over `recE`:
the returned type-1 body is `0x33 ‖ encoded ‖ mac[0..8]`. -/
theorem claim5_witness :
    ∃ (skey : Bytes) (sess : SessionEntry) (macKey : Bytes),
      getOpenSessionK recE = some (skey, sess) ∧
      [51, 42, 0, 198, 1, 1, 1, 1, 1, 1, 1] = 51 :: (envT.encodeWhisper
        { ephemeralKey := [7], counter := 0, previousCounter := 0,
          ciphertext := [42] } ++
        (calculateMAC envT.hmac macKey
          (envT.ourIdentityKey.pubKey ++ sess.indexInfo.remoteIdentityKey ++
            51 :: envT.encodeWhisper
              { ephemeralKey := [7], counter := 0, previousCounter := 0,
                ciphertext := [42] })).take 8) ∧
      ((({ type := 1, body := [51, 42, 0, 198, 1, 1, 1, 1, 1, 1, 1],
           registrationId := some 11 } : EncryptResult).type = 1 ∧
        ({ type := 1, body := [51, 42, 0, 198, 1, 1, 1, 1, 1, 1, 1],
           registrationId := some 11 } : EncryptResult).body =
          [51, 42, 0, 198, 1, 1, 1, 1, 1, 1, 1]) ∨
        (({ type := 1, body := [51, 42, 0, 198, 1, 1, 1, 1, 1, 1, 1],
            registrationId := some 11 } : EncryptResult).type = 3 ∧
          ∃ pkmsg : PreKeyWhisperMsg,
            ({ type := 1, body := [51, 42, 0, 198, 1, 1, 1, 1, 1, 1, 1],
               registrationId := some 11 } : EncryptResult).body =
              51 :: envT.encodePreKey pkmsg ∧
            pkmsg.message = [51, 42, 0, 198, 1, 1, 1, 1, 1, 1, 1])) :=
  claim5_inner_frame envT 2000 recE [42]
    { ephemeralKey := [7], counter := 0, previousCounter := 0, ciphertext := [42] }
    [51, 42, 0, 198, 1, 1, 1, 1, 1, 1, 1]
    { type := 1, body := [51, 42, 0, 198, 1, 1, 1, 1, 1, 1, 1],
      registrationId := some 11 }
    (encryptCore envT 2000 (some recE) [42]).2
    hmacT_length (by decide) (by decide)
    (by
      have h1 : (encryptCore envT 2000 (some recE) [42]).1 =
          .ok ({ ephemeralKey := [7], counter := 0, previousCounter := 0,
                 ciphertext := [42] },
               [51, 42, 0, 198, 1, 1, 1, 1, 1, 1, 1],
               { type := 1, body := [51, 42, 0, 198, 1, 1, 1, 1, 1, 1, 1],
                 registrationId := some 11 }) := by decide
      calc encryptCore envT 2000 (some recE) [42]
          = ((encryptCore envT 2000 (some recE) [42]).1,
             (encryptCore envT 2000 (some recE) [42]).2) := rfl
        _ = (.ok ({ ephemeralKey := [7], counter := 0, previousCounter := 0,
                    ciphertext := [42] },
                  [51, 42, 0, 198, 1, 1, 1, 1, 1, 1, 1],
                  { type := 1, body := [51, 42, 0, 198, 1, 1, 1, 1, 1, 1, 1],
                    registrationId := some 11 }),
             (encryptCore envT 2000 (some recE) [42]).2) := by rw [h1])

/-! ## Threading the open session through `recordSet` and `storeRecord` (C9) -/

/-- With unique keys, `mapLookup` returns the value of any listed pair. -/
theorem mapLookup_of_mem_nodup {κ α : Type} [DecidableEq κ] :
    ∀ (m : List (κ × α)) (k : κ) (v : α),
      (m.map Prod.fst).Nodup → (k, v) ∈ m → mapLookup m k = some v := by
  intro m
  induction m with
  | nil => intro k v _ h; cases h
  | cons hd tl ih =>
    obtain ⟨k1, v1⟩ := hd
    intro k v hnd hm
    simp only [List.map_cons, List.nodup_cons] at hnd
    rcases List.mem_cons.mp hm with he | hm1
    · injection he with h1 h2
      subst h1; subst h2
      simp
    · have hne : k1 ≠ k := by
        intro hkk
        exact hnd.1 (hkk ▸ List.mem_map.mpr ⟨(k, v), hm1, rfl⟩)
      rw [mapLookup_cons, if_neg hne]
      exact ih k v hnd.2 hm1

/-- Replacing the first open session's entry (unique keys, open
replacement) leaves it the first open session. -/
theorem find_open_mapInsert (k : Bytes) (s s' : SessionEntry) :
    ∀ l : List (Bytes × SessionEntry),
      (l.map Prod.fst).Nodup →
      l.find? (fun p => ¬isClosed p.2) = some (k, s) →
      isClosed s' = false →
      (mapInsert l k s').find? (fun p => ¬isClosed p.2) = some (k, s') := by
  intro l
  induction l with
  | nil => intro _ h _; simp at h
  | cons hd tl ih =>
    obtain ⟨k1, v1⟩ := hd
    intro hnd hf hs'
    simp only [List.map_cons, List.nodup_cons] at hnd
    by_cases hop : isClosed v1 = false
    · have hp : (fun q : Bytes × SessionEntry => decide (¬ isClosed q.2 = true)) (k1, v1) = true := by
        simp [hop]
      rw [List.find?_cons_of_pos tl hp, Option.some.injEq] at hf
      injection hf with h1 h2
      rw [show mapInsert ((k1, v1) :: tl) k s' = (k, s') :: tl by
        simp [mapInsert, h1]]
      exact List.find?_cons_of_pos tl (by simp [hs'])
    · have hcl : isClosed v1 = true := by
        cases h : isClosed v1
        · exact absurd h hop
        · rfl
      have hp : ¬((fun q : Bytes × SessionEntry => decide (¬ isClosed q.2 = true)) (k1, v1) = true) := by
        simp [hcl]
      rw [List.find?_cons_of_neg tl hp] at hf
      have hne : k1 ≠ k := by
        intro hkk
        exact hnd.1 (hkk ▸ List.mem_map.mpr
          ⟨(k, s), List.mem_of_find?_eq_some hf, rfl⟩)
      rw [show mapInsert ((k1, v1) :: tl) k s' = (k1, v1) :: mapInsert tl k s' by
        simp [mapInsert, hne]]
      rw [List.find?_cons_of_neg (mapInsert tl k s') hp]
      exact ih hnd.2 hf hs'

/-- Deleting a key whose (first) binding is a closed session does not
change the first open session. -/
theorem find_open_mapErase (k0 : Bytes) (s0 : SessionEntry) (k : Bytes) :
    ∀ l : List (Bytes × SessionEntry),
      l.find? (fun p => ¬isClosed p.2) = some (k0, s0) →
      (∀ v, mapLookup l k = some v → isClosed v = true) →
      (mapErase l k).find? (fun p => ¬isClosed p.2) = some (k0, s0) := by
  intro l
  induction l with
  | nil => intro h _; simp at h
  | cons hd tl ih =>
    obtain ⟨k1, v1⟩ := hd
    intro hf hcv
    by_cases hk1 : k1 = k
    · subst hk1
      have hcl : isClosed v1 = true := hcv v1 (by simp)
      have hp : ¬((fun q : Bytes × SessionEntry => decide (¬ isClosed q.2 = true)) (k1, v1) = true) := by
        simp [hcl]
      rw [List.find?_cons_of_neg tl hp] at hf
      rw [show mapErase ((k1, v1) :: tl) k1 = tl by simp [mapErase]]
      exact hf
    · rw [show mapErase ((k1, v1) :: tl) k = (k1, v1) :: mapErase tl k by
        simp [mapErase, hk1]]
      have hcv' : ∀ v, mapLookup tl k = some v → isClosed v = true := by
        intro v hv
        exact hcv v (by rw [mapLookup_cons, if_neg hk1]; exact hv)
      by_cases hop : isClosed v1 = false
      · have hp : (fun q : Bytes × SessionEntry => decide (¬ isClosed q.2 = true)) (k1, v1) = true := by
          simp [hop]
        rw [List.find?_cons_of_pos tl hp] at hf
        rw [List.find?_cons_of_pos (mapErase tl k) hp]
        exact hf
      · have hcl : isClosed v1 = true := by
          cases h : isClosed v1
          · exact absurd h hop
          · rfl
        have hp : ¬((fun q : Bytes × SessionEntry => decide (¬ isClosed q.2 = true)) (k1, v1) = true) := by
          simp [hcl]
        rw [List.find?_cons_of_neg tl hp] at hf
        rw [List.find?_cons_of_neg (mapErase tl k) hp]
        exact ih hf hcv'

/-- The cleanup loop only deletes closed sessions, so with unique keys the
first open session survives it. -/
theorem removeOldLoop_find_open :
    ∀ (fuel : Nat) (entries : List (Bytes × SessionEntry)) (removed : Nat)
      (k0 : Bytes) (s0 : SessionEntry),
      (entries.map Prod.fst).Nodup →
      entries.find? (fun p => ¬isClosed p.2) = some (k0, s0) →
      (removeOldLoop entries removed fuel).1.find? (fun p => ¬isClosed p.2) =
        some (k0, s0) := by
  intro fuel
  induction fuel with
  | zero => intro entries removed k0 s0 _ hf; exact hf
  | succ fuel ih =>
    intro entries removed k0 s0 hnd hf
    rw [removeOldLoop]
    split
    · cases hold : findOldestClosed entries with
      | none => exact hf
      | some q =>
        obtain ⟨k, t⟩ := q
        dsimp only
        have hmem := oldestScan_mem entries none (k, t) hold
        rcases hmem with h | ⟨s, hs, hst, ht⟩
        · cases h
        · have hcv : ∀ v, mapLookup entries k = some v → isClosed v = true := by
            intro v hv
            have := mapLookup_of_mem_nodup entries k s hnd hs
            rw [this, Option.some.injEq] at hv
            subst hv
            simp [isClosed, hst, ht]
          have hnd' : ((mapErase entries k).map Prod.fst).Nodup :=
            ((mapErase_sublist entries k).map Prod.fst).nodup hnd
          exact ih (mapErase entries k) (removed + 1) k0 s0 hnd'
            (find_open_mapErase k0 s0 k entries hf hcv)
    · exact hf

/-- `storeRecord` (cleanup included) keeps the first open session. -/
theorem getOpenSessionK_storeRecord (r : SessionRecord) (now : Int)
    (k0 : Bytes) (s0 : SessionEntry)
    (hnd : (r.sessions.map Prod.fst).Nodup)
    (h : getOpenSessionK r = some (k0, s0)) :
    getOpenSessionK (storeRecord r now) = some (k0, s0) := by
  rw [storeRecord, removeOldSessions]
  split
  · exact h
  · dsimp only
    split
    · exact removeOldLoop_find_open r.sessions.length r.sessions 0 k0 s0 hnd h
    · exact removeOldLoop_find_open r.sessions.length r.sessions 0 k0 s0 hnd h

/-- `recordSet` with an open session and unique keys: the updated entry is
the first open session afterwards if its key held it before. -/
theorem getOpenSessionK_recordSet (r : SessionRecord) (k : Bytes)
    (s s' : SessionEntry)
    (hnd : (r.sessions.map Prod.fst).Nodup)
    (h : getOpenSessionK r = some (k, s))
    (hs' : isClosed s' = false) :
    getOpenSessionK (recordSet r k s') = some (k, s') :=
  find_open_mapInsert k s s' r.sessions hnd h hs'

/-- **C9.**  Two successive successful `encrypt` calls on the same record
(no intervening ratchet step: the second call starts from the record the
first one stored) write strictly increasing `counter` fields into their
`WhisperMessage`s — the second is exactly the first plus one. -/
theorem claim9_counter_strictly_increases (env : CipherEnv) (now1 now2 : Int)
    (record rec1 : SessionRecord) (data1 data2 : Bytes)
    (msg1 msg2 : WhisperMsg) (frame1 frame2 : Bytes)
    (out1 out2 : EncryptResult) (rec2' : Option SessionRecord)
    (hnd : (record.sessions.map Prod.fst).Nodup)
    (h1 : encryptCore env now1 (some record) data1 =
      (.ok (msg1, frame1, out1), some rec1))
    (h2 : encryptCore env now2 (some rec1) data2 =
      (.ok (msg2, frame2, out2), rec2')) :
    msg2.counter = msg1.counter + 1 ∧ msg1.counter < msg2.counter := by
  obtain ⟨skey, sess, chain, chainF, seed, keys, hopen1, htr1, hgc1, hty1, hfill1,
    hlk1, hds1, hmsg1, hframe1, hout1, hrec1⟩ :=
    encryptCore_ok_extract env now1 record data1 msg1 frame1 out1 (some rec1) h1
  obtain ⟨skey2, sessB, chainB, chainG, seed2, keys2, hopen2, htr2, hgc2, hty2,
    hfill2, hlk2, hds2, hmsg2, hframe2, hout2, hrec2⟩ :=
    encryptCore_ok_extract env now2 rec1 data2 msg2 frame2 out2 rec2' h2
  rw [Option.some.injEq] at hrec1
  have hopS : isClosed sess = false := by
    have hps := List.find?_some hopen1
    simpa using hps
  have hnd1 : ((recordSet record skey
      (setChain sess sess.currentRatchet.ephemeralKeyPair.pubKey
        chainF)).sessions.map Prod.fst).Nodup :=
    mapInsert_keys_nodup _ _ _ hnd
  have h01 : getOpenSessionK (recordSet record skey
      (setChain sess sess.currentRatchet.ephemeralKeyPair.pubKey chainF)) =
      some (skey, setChain sess sess.currentRatchet.ephemeralKeyPair.pubKey chainF) :=
    getOpenSessionK_recordSet record skey sess _ hnd hopen1 hopS
  have h02 : getOpenSessionK (recordSet (recordSet record skey
      (setChain sess sess.currentRatchet.ephemeralKeyPair.pubKey chainF)) skey
      (setChain (setChain sess sess.currentRatchet.ephemeralKeyPair.pubKey chainF)
        sess.currentRatchet.ephemeralKeyPair.pubKey
        { chainKey := chainF.chainKey
          messageKeys := mapErase chainF.messageKeys chainF.chainKey.counter
          chainType := chainF.chainType })) =
      some (skey,
        setChain (setChain sess sess.currentRatchet.ephemeralKeyPair.pubKey chainF)
          sess.currentRatchet.ephemeralKeyPair.pubKey
          { chainKey := chainF.chainKey
            messageKeys := mapErase chainF.messageKeys chainF.chainKey.counter
            chainType := chainF.chainType }) :=
    getOpenSessionK_recordSet _ skey _ _ hnd1 h01 hopS
  have h03 := getOpenSessionK_storeRecord _ now1 skey _
    (mapInsert_keys_nodup _ _ _ hnd1) h02
  rw [hrec1] at hopen2
  rw [h03, Option.some.injEq] at hopen2
  injection hopen2 with hk hs
  subst hs
  have hBD : some ({ chainKey := chainF.chainKey,
                     messageKeys := mapErase chainF.messageKeys chainF.chainKey.counter,
                     chainType := chainF.chainType } : Chain) = some chainB := by
    rw [← hgc2]
    exact (mapLookup_mapInsert_self
      (mapInsert sess.chains sess.currentRatchet.ephemeralKeyPair.pubKey chainF)
      sess.currentRatchet.ephemeralKeyPair.pubKey
      { chainKey := chainF.chainKey,
        messageKeys := mapErase chainF.messageKeys chainF.chainKey.counter,
        chainType := chainF.chainType }).symm
  injection hBD with hBD
  have hc1 : msg1.counter = chainF.chainKey.counter := by rw [hmsg1]
  have hc2 : msg2.counter = chainG.chainKey.counter := by rw [hmsg2]
  obtain ⟨_, hcnt2, _⟩ :=
    fillMessageKeys_ok_spec env.hmac chainB (chainB.chainKey.counter + 1) chainG hfill2
  have hmx : chainG.chainKey.counter = chainB.chainKey.counter + 1 := by
    rw [hcnt2]
    exact max_eq_right (by omega)
  have hBF : chainB.chainKey.counter = chainF.chainKey.counter := by
    rw [← hBD]
  exact ⟨by omega, by omega⟩

/-- Witness for C9: two concrete `encrypt` calls over `recE` produce
counters 0 then 1. -/
theorem claim9_witness :
    ({ ephemeralKey := [7], counter := 1, previousCounter := 0,
       ciphertext := [43] } : WhisperMsg).counter =
      ({ ephemeralKey := [7], counter := 0, previousCounter := 0,
         ciphertext := [42] } : WhisperMsg).counter + 1 ∧
    ({ ephemeralKey := [7], counter := 0, previousCounter := 0,
       ciphertext := [42] } : WhisperMsg).counter <
      ({ ephemeralKey := [7], counter := 1, previousCounter := 0,
         ciphertext := [43] } : WhisperMsg).counter :=
  claim9_counter_strictly_increases envT 2000 2001 recE recE1 [42] [43]
    { ephemeralKey := [7], counter := 0, previousCounter := 0, ciphertext := [42] }
    { ephemeralKey := [7], counter := 1, previousCounter := 0, ciphertext := [43] }
    [51, 42, 0, 198, 1, 1, 1, 1, 1, 1, 1]
    [51, 43, 1, 31, 1, 1, 1, 1, 1, 1, 1]
    { type := 1, body := [51, 42, 0, 198, 1, 1, 1, 1, 1, 1, 1],
      registrationId := some 11 }
    { type := 1, body := [51, 43, 1, 31, 1, 1, 1, 1, 1, 1, 1],
      registrationId := some 11 }
    (encryptCore envT 2001 (some recE1) [43]).2
    (by decide) (by decide)
    (by
      have h1 : (encryptCore envT 2001 (some recE1) [43]).1 =
          .ok ({ ephemeralKey := [7], counter := 1, previousCounter := 0,
                 ciphertext := [43] },
               [51, 43, 1, 31, 1, 1, 1, 1, 1, 1, 1],
               { type := 1, body := [51, 43, 1, 31, 1, 1, 1, 1, 1, 1, 1],
                 registrationId := some 11 }) := by decide
      calc encryptCore envT 2001 (some recE1) [43]
          = ((encryptCore envT 2001 (some recE1) [43]).1,
             (encryptCore envT 2001 (some recE1) [43]).2) := rfl
        _ = (.ok ({ ephemeralKey := [7], counter := 1, previousCounter := 0,
                    ciphertext := [43] },
                  [51, 43, 1, 31, 1, 1, 1, 1, 1, 1, 1],
                  { type := 1, body := [51, 43, 1, 31, 1, 1, 1, 1, 1, 1, 1],
                    registrationId := some 11 }),
             (encryptCore envT 2001 (some recE1) [43]).2) := by rw [h1])

/-! ## The untrusted-identity paths of `encrypt` and `decryptWhisperMessage` (C4) -/

/-- A successful pass of the trial-decryption loop returns the mutated
winning session: its `used` timestamp is `now` and the returned record
holds it at its key. -/
theorem decryptWithSessionsLoop_ok (env : CipherEnv) (now : Int) (data : Bytes) :
    ∀ (sessions : List (Bytes × SessionEntry)) (record : SessionRecord)
      (k : Bytes) (s : SessionEntry) (pt : Bytes) (rec' : SessionRecord),
      decryptWithSessionsLoop env now data sessions record = (.ok (k, s, pt), rec') →
      s.indexInfo.used = now ∧ mapLookup rec'.sessions k = some s := by
  intro sessions
  induction sessions with
  | nil =>
    intro record k s pt rec' h
    simp only [decryptWithSessionsLoop, Prod.mk.injEq] at h
    cases h.1
  | cons hd tl ih =>
    obtain ⟨k1, sess1⟩ := hd
    intro record k s pt rec' h
    simp only [decryptWithSessionsLoop] at h
    cases hdd : doDecryptWhisperMessage env data sess1 with
    | mk res sess1' =>
      rw [hdd] at h
      cases res with
      | ok plaintext =>
        dsimp only at h
        simp only [Prod.mk.injEq, Except.ok.injEq] at h
        obtain ⟨⟨hk, hs, hpt⟩, hrec⟩ := h
        subst hk
        refine ⟨by rw [← hs], ?_⟩
        rw [← hrec, ← hs]
        exact mapLookup_mapInsert_self _ _ _
      | error e =>
        dsimp only at h
        exact ih (recordSet record k1 sess1') k s pt rec' h

/-- `decryptWithSessions`' success is the loop's success. -/
theorem decryptWithSessions_ok (env : CipherEnv) (now : Int) (data : Bytes)
    (sessions : List (Bytes × SessionEntry)) (record : SessionRecord)
    (k : Bytes) (s : SessionEntry) (pt : Bytes) (rec' : SessionRecord)
    (h : decryptWithSessions env now data sessions record = (.ok (k, s, pt), rec')) :
    s.indexInfo.used = now ∧ mapLookup rec'.sessions k = some s := by
  rw [decryptWithSessions] at h
  by_cases hemp : sessions.isEmpty
  · rw [if_pos hemp] at h
    simp only [Prod.mk.injEq] at h
    cases h.1
  · rw [if_neg hemp] at h
    exact decryptWithSessionsLoop_ok env now data sessions record k s pt rec' h

/-- **C4 (amended).**  When storage distrusts the remote identity key of
the session in use, both paths fail with
`UntrustedIdentityKeyError(addr.id, remoteIdentityKey)`; `encrypt` checks
trust before touching the session and hands back the unchanged record, but
`decryptWhisperMessage` checks trust only *after* the trial decryption, so
the record it hands back holds the mutated winning session (its `used`
timestamp already set to `now`, the ratchet stepped and the message key
consumed in place) — refuting the claim's "record is not mutated" for the
decrypt path. -/
theorem claim4_untrusted_amended (env : CipherEnv) (now : Int)
    (record : SessionRecord) (data : Bytes) :
    (∀ skey sess, getOpenSessionK record = some (skey, sess) →
      env.isTrusted sess.indexInfo.remoteIdentityKey = false →
      encryptCore env now (some record) data =
        (.error (.untrustedIdentityKeyError env.addrId
          sess.indexInfo.remoteIdentityKey), some record)) ∧
    (∀ k sess pt recM,
      decryptWithSessions env now data (getSessions record) record =
        (.ok (k, sess, pt), recM) →
      env.isTrusted sess.indexInfo.remoteIdentityKey = false →
      decryptWhisperMessage env now (some record) data =
        (.error (.untrustedIdentityKeyError env.addrId
          sess.indexInfo.remoteIdentityKey), some recM) ∧
      sess.indexInfo.used = now ∧
      mapLookup recM.sessions k = some sess) := by
  constructor
  · intro skey sess hopen htr
    unfold encryptCore
    dsimp only
    rw [hopen]
    dsimp only
    rw [if_pos (by simp [htr])]
  · intro k sess pt recM hws htr
    obtain ⟨hused, hlook⟩ :=
      decryptWithSessions_ok env now data (getSessions record) record k sess pt
        recM hws
    refine ⟨?_, hused, hlook⟩
    unfold decryptWhisperMessage
    dsimp only
    rw [hws]
    dsimp only
    rw [if_pos (by simp [htr])]

/-- Counterexample to C4 as stated: with every identity distrusted,
`decryptWhisperMessage` over `recD` fails with the expected
`UntrustedIdentityKeyError` but returns a *mutated* record — the winning
session's `used` bumped to `now` and its receiving chain stepped with the
message key consumed. -/
theorem claim4_counterexample :
    (decryptWhisperMessage envU 2000 (some recD) frameGood).1 =
      .error (.untrustedIdentityKeyError "addr.1" (List.replicate 33 2)) ∧
    (decryptWhisperMessage envU 2000 (some recD) frameGood).2 = some recM ∧
    recM ≠ recD := by
  refine ⟨by decide, by decide, by decide⟩

/-- Witness for the amended C4 at concrete inputs: `encrypt` fails and
returns `recD` unchanged; `decryptWhisperMessage` fails with the same
error but returns the mutated record `recM` holding the used-stamped
session `sessM`. -/
theorem claim4_witness :
    encryptCore envU 2000 (some recD) [42] =
      (.error (.untrustedIdentityKeyError "addr.1" (List.replicate 33 2)),
       some recD) ∧
    (decryptWhisperMessage envU 2000 (some recD) frameGood =
      (.error (.untrustedIdentityKeyError "addr.1" (List.replicate 33 2)),
       some recM) ∧
     sessM.indexInfo.used = 2000 ∧
     mapLookup recM.sessions [1] = some sessM) :=
  ⟨(claim4_untrusted_amended envU 2000 recD [42]).1 [1] sessT (by decide) (by decide),
   (claim4_untrusted_amended envU 2000 recD frameGood).2 [1] sessM [42] recM
     (by decide) (by decide)⟩

end LibSignal
